import Mathlib

/-!
# Verification of the markdown2 text-to-HTML converter

A shallow embedding of `src/markdown2.py` (version 1.0.1.1): the document buffer is a
`List Char`, each Python regular-expression pass is translated into an explicit
backtracking matcher that follows the engine's ordered-choice semantics for that
pattern, and the converter's mutable side-tables are threaded as explicit state.
-/

set_option maxRecDepth 8000
set_option maxHeartbeats 1600000000

namespace Markdown2

/-- Characters of the document buffer; the Python code manipulates byte strings. -/
abbrev Str := List Char

/-! ## Basic Python string operations -/

/-- The characters matched by `[ \t]` in the patterns. -/
def isSpaceTab (c : Char) : Bool := c = ' ' || c = '\t'

/-- Python string whitespace, as stripped by a bare `strip()` / `rstrip()`. -/
def isPyWS (c : Char) : Bool :=
  c = ' ' || c = '\t' || c = '\n' || c = '\r' || c = '\x0b' || c = '\x0c'

/-- `\w` / `\W` (ASCII semantics, as for the uncompiled byte patterns used in the source). -/
def isWordChar (c : Char) : Bool :=
  (c ≥ 'a' && c ≤ 'z') || (c ≥ 'A' && c ≤ 'Z') || (c ≥ '0' && c ≤ '9') || c = '_'

def isAsciiDigit (c : Char) : Bool := c ≥ '0' && c ≤ '9'

def isHexDigit (c : Char) : Bool :=
  isAsciiDigit c || (c ≥ 'a' && c ≤ 'f') || (c ≥ 'A' && c ≤ 'F')

def isAsciiLetter (c : Char) : Bool := (c ≥ 'a' && c ≤ 'z') || (c ≥ 'A' && c ≤ 'Z')

/-- Python `str.lower()` (ASCII). -/
def lowerStr (s : Str) : Str := s.map Char.toLower

def lstripBy (p : Char → Bool) (s : Str) : Str := s.dropWhile p

def rstripBy (p : Char → Bool) (s : Str) : Str := (s.reverse.dropWhile p).reverse

def stripBy (p : Char → Bool) (s : Str) : Str := lstripBy p (rstripBy p s)

/-- Python `str.replace(pat, repl)`: every non-overlapping occurrence, left to right.
The fuel is the length of the text; each step consumes at least one character. -/
def pyReplaceAux (pat repl : Str) : Nat → Str → Str
  | 0, s => s
  | _ + 1, [] => []
  | fuel + 1, c :: cs =>
    if pat.isPrefixOf (c :: cs) then
      repl ++ pyReplaceAux pat repl fuel ((c :: cs).drop pat.length)
    else
      c :: pyReplaceAux pat repl fuel cs

def pyReplace (s pat repl : Str) : Str :=
  if pat.isEmpty then s else pyReplaceAux pat repl s.length s

/-- Python `str.split(sep)` for a single-character separator (no maxsplit). -/
def splitOnChar (sep : Char) : Str → List Str
  | [] => [[]]
  | c :: cs =>
    match splitOnChar sep cs with
    | [] => [[c]]
    | r :: rs => if c = sep then [] :: r :: rs else (c :: r) :: rs

/-- Python `str.split(sep, 1)` for a single-character separator. -/
def pySplitOnce (sep : Char) (s : Str) : List Str :=
  match s.findIdx? (· = sep) with
  | none => [s]
  | some i => [s.take i, s.drop (i + 1)]

def joinWith (sep : Str) : List Str → Str
  | [] => []
  | [x] => x
  | x :: xs => x ++ sep ++ joinWith sep xs

/-- Decimal rendering of a natural number (Python `str(n)` / `'%d' % n`). -/
def digitChar (d : Nat) : Char := Char.ofNat (48 + d)

def natToStrAux : Nat → Nat → Str
  | 0, _ => []
  | fuel + 1, n =>
    if n < 10 then [digitChar n]
    else natToStrAux fuel (n / 10) ++ [digitChar (n % 10)]

def natToStr (n : Nat) : Str := natToStrAux (n + 1) n

/-- Lower-case hexadecimal digits, as produced by Python `hex()`. -/
def hexDigitChar (d : Nat) : Char :=
  if d < 10 then Char.ofNat (48 + d) else Char.ofNat (87 + d)

def natToHexAux : Nat → Nat → Str
  | 0, _ => []
  | fuel + 1, n =>
    if n < 16 then [hexDigitChar n]
    else natToHexAux fuel (n / 16) ++ [hexDigitChar (n % 16)]

/-- Python `hex(n)[1:]` for a nonnegative `n`: drops the leading `0` of `0x...`. -/
def pyHexTail (n : Nat) : Str := 'x' :: natToHexAux (n + 1) n

/-- Number of occurrences of `pat` as a substring of `s` (any position). -/
def countSub (pat s : Str) : Nat :=
  ((List.range (s.length + 1)).filter (fun i => pat.isPrefixOf (s.drop i))).length

/-- Whether `pat` occurs as a substring of `s`. -/
def containsSub (pat s : Str) : Bool :=
  (List.range (s.length + 1)).any (fun i => pat.isPrefixOf (s.drop i))

/-- Length of the run of characters satisfying `p` starting at position `i`. -/
def runLen (p : Char → Bool) (s : Str) (i : Nat) : Nat :=
  ((s.drop i).takeWhile p).length

/-- Candidate values `hi, hi-1, ..., lo` (a greedy quantifier's backtracking order). -/
def descRange (lo hi : Nat) : List Nat :=
  (List.range' lo (hi + 1 - lo)).reverse

/-- Candidate values `lo, lo+1, ..., hi` (a lazy quantifier's backtracking order). -/
def ascRange (lo hi : Nat) : List Nat :=
  List.range' lo (hi + 1 - lo)

/-- Association-list lookup, modelling Python dict indexing. -/
def alistGet (m : List (Str × α)) (k : Str) : Option α :=
  (m.find? (fun kv => kv.1 = k)).map (·.2)

/-- Association-list update, modelling Python dict assignment (overwrite). -/
def alistPut (m : List (Str × α)) (k : Str) (v : α) : List (Str × α) :=
  if (m.find? (fun kv => kv.1 = k)).isSome then
    m.map (fun kv => if kv.1 = k then (k, v) else kv)
  else m ++ [(k, v)]

/-! ## Globals: escape table and removed-text marker -/

/-- `HTML_REMOVED_TEXT = "[HTML_REMOVED]"`. -/
def HTML_REMOVED_TEXT : Str := "[HTML_REMOVED]".toList

/-- Modelled from the spec: stand-in for the hexdigest of the external `md5` library
(section 4.1 requires only a content-derived, collision-resistant digest; the exact
128-bit MD5 values are irrelevant to the engine, which relies on injectivity and on
tokens not occurring in input). The stand-in hex-encodes each byte of the content. -/
def md5hexdigest (s : Str) : Str :=
  s.flatMap (fun c => [hexDigitChar ((c.toNat / 16) % 16), hexDigitChar (c.toNat % 16)])

/-- `_escape_hash(ch) = '!' + md5(ch).hexdigest() + '!'`. -/
def escape_hash (c : Char) : Str := '!' :: (md5hexdigest [c] ++ ['!'])

/-- The characters of `g_escape_table`, in the order listed in the source. -/
def g_escape_chars : Str := "\\`*_\x7b\x7d[]()>#+-.!".toList

/-- `g_escape_table[ch]`. -/
def g_escape_table (c : Char) : Str := escape_hash c

/-! ## Configuration and converter state -/

/-- The `extras` set (restricted to the extras the engine recognises). -/
structure Extras where
  codeFriendly : Bool
  footnotes : Bool
  codeColor : Bool
  linkPatterns : Bool
deriving Repr, DecidableEq

/-- An externally supplied link-pattern rule: `finditer` returns the spans of the
matches of the compiled pattern together with the href template already expanded
for that match (the regex object and `match.expand` are external collaborators). -/
structure LinkRule where
  finditer : Str → List ((Nat × Nat) × Str)

/-- Constructor-time configuration of a `Markdown` instance. -/
structure Config where
  tabWidth : Nat
  safeMode : Bool
  emptyElementSuffix : Str
  extras : Extras
  linkPatternRules : List LinkRule

/-- The default configuration: `Markdown()` with no extras. -/
def defaultConfig : Config :=
  { tabWidth := 4, safeMode := false, emptyElementSuffix := " />".toList,
    extras := { codeFriendly := false, footnotes := false, codeColor := false,
                linkPatterns := false },
    linkPatternRules := [] }

/-- The converter's mutable side-tables (`self.urls`, `self.titles`,
`self.html_blocks`, `self.list_level`, `self.footnotes`, `self.footnote_ids`). -/
structure MState where
  urls : List (Str × Str)
  titles : List (Str × Str)
  html_blocks : List (Str × Str)
  list_level : Nat
  footnotes : List (Str × List Str)
  footnote_ids : List Str
deriving Repr

def emptyMState : MState :=
  { urls := [], titles := [], html_blocks := [], list_level := 0,
    footnotes := [], footnote_ids := [] }

/-- `Markdown.reset`: clears the url/title/html-block tables and the list level, and,
when the footnotes extra is enabled, the footnote store and id order. (When the extra
is disabled the footnote attributes do not exist on the Python instance; the fields
are carried unchanged as phantom values.) -/
def reset (cfg : Config) (s : MState) : MState :=
  { urls := [], titles := [], html_blocks := [], list_level := 0,
    footnotes := if cfg.extras.footnotes then [] else s.footnotes,
    footnote_ids := if cfg.extras.footnotes then [] else s.footnote_ids }

/-! ## `_detab` and `_outdent` -/

/-- One step of `_detab_re.subn`: the lazy `(.*?)\t` match finds the next tab
reachable on its line; `g1` is the text from the last line boundary before the tab
(or from the current scan position) up to the tab, and the replacement pads with
spaces to the next tab stop. -/
def detabGo (tw : Nat) : Nat → Str → Str
  | 0, s => s
  | fuel + 1, s =>
    match s.findIdx? (· = '\t') with
    | none => s
    | some t =>
      let seg := s.take t
      let g1len := (seg.reverse.takeWhile (· ≠ '\n')).length
      seg ++ List.replicate (tw - g1len % tw) ' ' ++ detabGo tw fuel (s.drop (t + 1))

/-- `Markdown._detab`. -/
def detab (tw : Nat) (s : Str) : Str :=
  if s.contains '\t' then detabGo tw s.length s else s

/-- `Markdown._outdent`: per line, remove one leading tab or `[ ]{1,tab_width}`
(the regex `^(\t|[ ]{1,%d})` with re.M; the tab alternative is tried first). -/
def outdentLine (tw : Nat) (l : Str) : Str :=
  match l with
  | '\t' :: rest => rest
  | _ =>
    let k := runLen (· = ' ') l 0
    if k = 0 then l else l.drop (min k tw)

def outdent (tw : Nat) (s : Str) : Str :=
  joinWith ['\n'] ((splitOnChar '\n' s).map (outdentLine tw))

/-! ## `_strip` of whitespace-only lines -/

/-- `_ws_only_line_re = ^[ \t]+$` with re.M, substituted by `""`: every line that
consists of one or more spaces/tabs only is emptied (newlines are kept). -/
def stripWsOnlyLines (s : Str) : Str :=
  joinWith ['\n']
    ((splitOnChar '\n' s).map
      (fun l => if l ≠ [] && l.all isSpaceTab then [] else l))

/-! ## `_encode_code` and backslash escapes -/

/-- `Markdown._encode_code`. -/
def encode_code (s : Str) : Str :=
  let repls : List (Str × Str) :=
    [("&".toList, "&amp;".toList), ("<".toList, "&lt;".toList), (">".toList, "&gt;".toList),
     (['*'], g_escape_table '*'), (['_'], g_escape_table '_'),
     ([Char.ofNat 123], g_escape_table (Char.ofNat 123)),
     ([Char.ofNat 125], g_escape_table (Char.ofNat 125)),
     (['['], g_escape_table '['), ([']'], g_escape_table ']'),
     (['\\'], g_escape_table '\\')]
  repls.foldl (fun t (br : Str × Str) => pyReplace t br.1 br.2) s

/-- `Markdown._encode_backslash_escapes`: for each escape-table entry, replace
`\ch` by its token (iteration order: the order characters are listed in the table). -/
def encode_backslash_escapes (s : Str) : Str :=
  g_escape_chars.foldl (fun t ch => pyReplace t ['\\', ch] (g_escape_table ch)) s

/-- `Markdown._unescape_special_chars`: swap every token back to its character. -/
def unescape_special_chars (s : Str) : Str :=
  g_escape_chars.foldl (fun t ch => pyReplace t (g_escape_table ch) [ch]) s

/-! ## Code blocks (`_do_code_blocks`, `_code_block_sub`) -/

/-- Modelled from the spec: the external syntax-highlighting collaborator (pygments)
is out of scope; per sections 4.7/7 its absence or an unrecognised language name
degrades to the plain escaped-code path, so the lexer lookup reports no lexer. -/
def get_pygments_lexer (_lexer_name : Str) : Option Unit := none

/-- `Markdown._code_block_sub` applied to the match's group 1.  The `code-color`
branch unpacks `codeblock.split('\n', 1)` into two variables, which raises
`ValueError` when the (outdented, stripped) block contains no newline. -/
def code_block_sub (cfg : Config) (g1 : Str) : Except Str Str :=
  let codeblock := outdent cfg.tabWidth g1
  let codeblock := detab cfg.tabWidth codeblock
  let codeblock := lstripBy (· = '\n') codeblock
  let codeblock := rstripBy isPyWS codeblock
  let plain : Str → Str := fun cb =>
    "\n\n<pre><code>".toList ++ encode_code cb ++ "\n</code></pre>\n\n".toList
  if cfg.extras.codeColor && ":::".toList.isPrefixOf codeblock then
    match pySplitOnce '\n' codeblock with
    | [_] => .error "ValueError: need more than 1 value to unpack".toList
    | parts =>
      let lexer_name := stripBy isPyWS ((parts.headD []).drop 3)
      let rest := parts.getD 1 []
      let codeblock := lstripBy (· = '\n') rest
      match get_pygments_lexer lexer_name with
      | some _ => .ok (plain codeblock)   -- collaborator absent: never reached
      | none => .ok (plain codeblock)
  else
    .ok (plain codeblock)

/-! ## The randomized e-mail obfuscation (`_xml_encode_email_char_at_random`,
`_encode_email_address`) -/

/-- `_xml_encode_email_char_at_random(ch)` as a function of the value `r` drawn
from `random.random()` (the thresholds 0.9 and 0.45 written as rationals). -/
def xml_encode_email_char_at_random (r : ℚ) (ch : Char) : Str :=
  if r > mkRat 9 10 && ch ≠ '@' then [ch]
  else if r < mkRat 45 100 then
    '&' :: '#' :: (pyHexTail ch.toNat ++ [';'])
  else
    '&' :: '#' :: (natToStr ch.toNat ++ [';'])

/-- `Markdown._encode_email_address`, with the stream of `random.random()` draws
made explicit: the `i`-th character of `"mailto:" + addr` consumes draw `rs i`. -/
def encode_email_address (rs : Nat → ℚ) (addr : Str) : Str :=
  let full := "mailto:".toList ++ addr
  let chars : List Str :=
    (List.range full.length).map (fun i => xml_encode_email_char_at_random (rs i) (full.getD i ' '))
  "<a href=\"".toList ++ chars.flatten ++ "\">".toList
    ++ (chars.drop 7).flatten ++ "</a>".toList

/-! ## The link/image scanner (`_do_links`) -/

def MAX_LINK_TEXT_SENTINEL : Nat := 300

/-- The closing-bracket scan of `_do_links`: walk the window tracking bracket
depth and report the offset of the `]` that takes the depth negative (`None`
when the window is exhausted, i.e. the `for`/`else` branch). -/
def scanCloser : Str → Nat → Option Nat
  | [], _ => none
  | c :: cs, d =>
    if c = ']' then
      if d = 0 then some 0 else (scanCloser cs (d - 1)).map (· + 1)
    else if c = '[' then (scanCloser cs (d + 1)).map (· + 1)
    else (scanCloser cs d).map (· + 1)

/-- Offset of the first `[` of a string. -/
def firstLB : Str → Option Nat
  | [] => none
  | c :: cs => if c = '[' then some 0 else (firstLB cs).map (· + 1)

/-- `text.index('[', pos)` (as an `Option`; Python raises `ValueError` to `break`). -/
def findLB (t : Str) (pos : Nat) : Option Nat := (firstLB (t.drop pos)).map (pos + ·)

/-- Backtracking matcher for the tail of `_tail_of_inline_link_re` after the url:
`[ \t]* ( (['"]) (?P<title>.*?) \3 )? \)` — greedy whitespace longest-first, the
optional title group tried before its absence, the lazy title shortest-first.
Returns the title group and the end offset. -/
def inlineTailFinish (s : Str) (off : Nat) : Option (Option Str × Nat) :=
  (descRange 0 (runLen isSpaceTab s off)).findSome? fun b =>
    let p4 := off + b
    let withTitle : Option (Option Str × Nat) :=
      match s.get? p4 with
      | some q =>
        if q = '"' || q = Char.ofNat 39 then
          (ascRange 0 (s.length - (p4 + 1))).findSome? fun j =>
            if s.get? (p4 + 1 + j) = some q && s.get? (p4 + 1 + j + 1) = some ')' then
              some (some ((s.drop (p4 + 1)).take j), p4 + 1 + j + 2)
            else none
        else none
      | none => none
    match withTitle with
    | some r => some r
    | none => if s.get? p4 = some ')' then some (none, p4 + 1) else none

/-- Backtracking matcher for `_tail_of_inline_link_re`, anchored at the head of `s`
(the text from the character after the `]`):
`\( [ \t]* (?P<url> <.*?> | .*? ) [ \t]* ( (['"]) (?P<title>.*?) \3 )? \)` with re.S.
Choice points are explored in the engine's order (greedy longest-first, lazy
shortest-first, alternatives left-first).  Returns (url group, title group,
consumed length). -/
def matchInlineTail (s : Str) : Option (Str × Option Str × Nat) :=
  match s with
  | '(' :: _ =>
    (descRange 0 (runLen isSpaceTab s 1)).findSome? fun a =>
      let p2 := 1 + a
      let alt1 : Option (Str × Option Str × Nat) :=
        if s.get? p2 = some '<' then
          (ascRange 0 (s.length - (p2 + 1))).findSome? fun j =>
            if s.get? (p2 + 1 + j) = some '>' then
              match inlineTailFinish s (p2 + 1 + j + 1) with
              | some (title, e) => some ((s.drop p2).take (j + 2), title, e)
              | none => none
            else none
        else none
      match alt1 with
      | some r => some r
      | none =>
        (ascRange 0 (s.length - p2)).findSome? fun ulen =>
          match inlineTailFinish s (p2 + ulen) with
          | some (title, e) => some ((s.drop p2).take ulen, title, e)
          | none => none
  | _ => none

/-- Backtracking matcher for `_tail_of_reference_link_re`, anchored at the head of
`s`: `[ ]? (?:\n[ ]*)? \[ (?P<id>.*?) \]` with re.S.  Returns (id group, consumed
length). -/
def matchRefTail (s : Str) : Option (Str × Nat) :=
  let idPart : Nat → Option (Str × Nat) := fun off =>
    if s.get? off = some '[' then
      (ascRange 0 (s.length - (off + 1))).findSome? fun j =>
        if s.get? (off + 1 + j) = some ']' then
          some ((s.drop (off + 1)).take j, off + 1 + j + 1)
        else none
    else none
  let nlPart : Nat → Option (Str × Nat) := fun off =>
    let withNl : Option (Str × Nat) :=
      if s.get? off = some '\n' then
        (descRange 0 (runLen (· = ' ') s (off + 1))).findSome? fun c =>
          idPart (off + 1 + c)
      else none
    match withNl with
    | some r => some r
    | none => idPart off
  match (if s.get? 0 = some ' ' then nlPart 1 else none) with
  | some r => some r
  | none => nlPart 0

/-- `re.sub(r'\W', '-', s)`. -/
def normId (s : Str) : Str := s.map (fun c => if isWordChar c then c else '-')

/-- The `<sup class="footnote-ref" ...>` replacement emitted for a footnote
reference, where `n = len(self.footnote_ids)` after the append. -/
def footnoteRefResult (normed_id : Str) (n : Nat) : Str :=
  "<sup class=\"footnote-ref\" id=\"fnref-".toList ++ normed_id
    ++ "\"><a href=\"#fn-".toList ++ normed_id ++ "\">".toList
    ++ natToStr n ++ "</a></sup>".toList

/-- Replace `*` and `_` by their escape-table tokens (applied to urls and titles
so that later emphasis passes cannot corrupt them). -/
def escapeStarUnderscore (s : Str) : Str :=
  pyReplace (pyReplace s ['*'] (g_escape_table '*')) ['_'] (g_escape_table '_')

/-- The loop state of `_do_links`: the buffer, the scan cursor, the
anchor-allowed watermark, and the footnote-id order list. -/
structure LinkState where
  text : Str
  curr_pos : Nat
  anchor_allowed_pos : Nat
  footnote_ids : List Str
deriving Repr, DecidableEq

/-- One iteration of the `while True` loop of `_do_links`: either a new state
(`continue`) or the function's final result (`break` / `return text`). -/
def do_links_step (cfg : Config) (ms : MState) (s : LinkState) :
    LinkState ⊕ (Str × List Str) :=
  let text := s.text
  match findLB text s.curr_pos with
  | none => .inr (text, s.footnote_ids)
  | some start_idx =>
    let window := (text.drop (start_idx + 1)).take (MAX_LINK_TEXT_SENTINEL - 1)
    match scanCloser window 0 with
    | none => .inl { s with curr_pos := start_idx + 1 }
    | some rel =>
      let pc := start_idx + 1 + rel
      let link_text := (text.drop (start_idx + 1)).take rel
      if cfg.extras.footnotes && link_text.take 1 = ['^'] then
        let normed_id := normId (lowerStr (link_text.drop 1))
        if (alistGet ms.footnotes normed_id).isSome then
          let ids := s.footnote_ids ++ [normed_id]
          let result := footnoteRefResult normed_id ids.length
          .inl { s with text := text.take start_idx ++ result ++ text.drop (pc + 1),
                        footnote_ids := ids }
        else
          .inl { s with curr_pos := pc + 1 }
      else
        let p := pc + 1
        if p = text.length then .inr (text, s.footnote_ids)
        else if text.get? p = some '(' then
          match matchInlineTail (text.drop p) with
          | some (url0, title0, k) =>
            let is_img := decide (0 < start_idx) && decide (text.get? (start_idx - 1) = some '!')
            let start' := if is_img then start_idx - 1 else start_idx
            let url := if url0.take 1 = ['<'] then (url0.drop 1).dropLast else url0
            let url := escapeStarUnderscore url
            let title_str : Str :=
              match title0 with
              | some t =>
                if t ≠ [] then
                  " title=\"".toList
                    ++ pyReplace (escapeStarUnderscore t) ['"'] "&quot;".toList ++ ['"']
                else []
              | none => []
            if is_img then
              let result := "<img src=\"".toList ++ url ++ "\" alt=\"".toList
                  ++ pyReplace link_text ['"'] "&quot;".toList ++ ['"'] ++ title_str
                  ++ cfg.emptyElementSuffix
              .inl { s with text := text.take start' ++ result ++ text.drop (p + k),
                            curr_pos := start' + result.length }
            else if s.anchor_allowed_pos ≤ start_idx then
              let result_head := "<a href=\"".toList ++ url ++ ['"'] ++ title_str ++ ['>']
              let result := result_head ++ link_text ++ "</a>".toList
              .inl { s with text := text.take start_idx ++ result ++ text.drop (p + k),
                            curr_pos := start_idx + result_head.length,
                            anchor_allowed_pos := start_idx + result.length }
            else
              .inl { s with curr_pos := start_idx + 1 }
          | none => .inl { s with curr_pos := start_idx + 1 }
        else
          match matchRefTail (text.drop p) with
          | some (idg, k) =>
            let is_img := decide (0 < start_idx) && decide (text.get? (start_idx - 1) = some '!')
            let start' := if is_img then start_idx - 1 else start_idx
            let link_id0 := lowerStr idg
            let link_id := if link_id0 = [] then lowerStr link_text else link_id0
            match alistGet ms.urls link_id with
            | some url0 =>
              let url := escapeStarUnderscore url0
              let title_str : Str :=
                match alistGet ms.titles link_id with
                | some t =>
                  if t ≠ [] then " title=\"".toList ++ escapeStarUnderscore t ++ ['"'] else []
                | none => []
              if is_img then
                let result := "<img src=\"".toList ++ url ++ "\" alt=\"".toList
                    ++ pyReplace link_text ['"'] "&quot;".toList ++ ['"'] ++ title_str
                    ++ cfg.emptyElementSuffix
                .inl { s with text := text.take start' ++ result ++ text.drop (p + k),
                              curr_pos := start' + result.length }
              else if s.anchor_allowed_pos ≤ start_idx then
                let result_head := "<a href=\"".toList ++ url ++ ['"'] ++ title_str ++ ['>']
                let result := result_head ++ link_text ++ "</a>".toList
                .inl { s with text := text.take start_idx ++ result ++ text.drop (p + k),
                              curr_pos := start_idx + result_head.length,
                              anchor_allowed_pos := start_idx + result.length }
              else
                .inl { s with curr_pos := start_idx + 1 }
            | none => .inl { s with curr_pos := p + k }
          | none => .inl { s with curr_pos := start_idx + 1 }

/-- The `while True` loop of `_do_links`, with explicit fuel.  The fuel
`lbCountFrom text curr_pos + 1` always suffices (see the termination theorem). -/
def do_links_loop (cfg : Config) (ms : MState) : Nat → LinkState → Option (Str × List Str)
  | 0, _ => none
  | fuel + 1, s =>
    match do_links_step cfg ms s with
    | .inr r => some r
    | .inl s' => do_links_loop cfg ms fuel s'

/-- Number of `[` characters at or after position `pos`. -/
def lbCountFrom (t : Str) (pos : Nat) : Nat := (t.drop pos).count '['

/-- `Markdown._do_links`. -/
def do_links (cfg : Config) (ms : MState) (t : Str) : Str × MState :=
  let s0 : LinkState := { text := t, curr_pos := 0, anchor_allowed_pos := 0,
                          footnote_ids := ms.footnote_ids }
  match do_links_loop cfg ms (lbCountFrom t 0 + 1) s0 with
  | some (t', ids) => (t', { ms with footnote_ids := ids })
  | none => (t, ms)   -- unreachable: the fuel is sufficient (termination theorem)

/-! ## `_encode_amps_and_angles` -/

/-- The negative-lookahead body of `_ampersand_re`, `#?[xX]?(?:[0-9a-fA-F]+|\w+);`,
tested at offset `i` (just after the `&`).  Inside a lookahead only success
matters; each `+` succeeds exactly on its maximal run followed by `;` (shorter
runs would be followed by a run character, not `;`). -/
def isEntityTail (t : Str) (i : Nat) : Bool :=
  let tryAt : Nat → Bool := fun j =>
    let hexr := runLen isHexDigit t j
    let wr := runLen isWordChar t j
    (decide (1 ≤ hexr) && t.get? (j + hexr) = some ';')
      || (decide (1 ≤ wr) && t.get? (j + wr) = some ';')
  let afterHash : List Nat := if t.get? i = some '#' then [i + 1, i] else [i]
  afterHash.any fun j =>
    let afterX : List Nat :=
      if t.get? j = some 'x' || t.get? j = some 'X' then [j + 1, j] else [j]
    afterX.any tryAt

/-- `_ampersand_re.sub('&amp;', text)`. -/
def encodeAmps (t : Str) : Str :=
  (List.range t.length).flatMap fun i =>
    match t.get? i with
    | some '&' => if isEntityTail t (i + 1) then ['&'] else "&amp;".toList
    | some c => [c]
    | none => []

/-- `_naked_lt_re.sub('&lt;', text)`: `<(?![a-z/?\$!])` with re.I. -/
def encodeNakedLt (t : Str) : Str :=
  (List.range t.length).flatMap fun i =>
    match t.get? i with
    | some '<' =>
      match t.get? (i + 1) with
      | some c =>
        if isAsciiLetter c || c = '/' || c = '?' || c = '$' || c = '!' then ['<']
        else "&lt;".toList
      | none => "&lt;".toList
    | some c => [c]
    | none => []

/-- `Markdown._encode_amps_and_angles`. -/
def encode_amps_and_angles (s : Str) : Str := encodeNakedLt (encodeAmps s)

/-! ## Reference-definition stripping (`_strip_link_definitions`) -/

/-- Candidate continuation positions for an optional single character (greedy:
consume first). -/
def optChar (t : Str) (c : Char) (q : Nat) : List Nat :=
  if t.get? q = some c then [q + 1, q] else [q]

/-- Whether `p` is a line start (`^` with re.M). -/
def lineStart (t : Str) (p : Nat) : Bool :=
  p = 0 || (decide (1 ≤ p) && t.get? (p - 1) = some '\n')

/-- The final `(?:\n+|\Z)` of the link-definition pattern: `\n+` greedy, else
end-of-string.  Returns the match end. -/
def nlRunOrEnd (t : Str) (v : Nat) : Option Nat :=
  let r := runLen (· = '\n') t v
  if 1 ≤ r then some (v + r)
  else if v = t.length then some v
  else none

/-- Backtracking matcher for `_link_def_re` (tab width 4 gives `[ ]{0,3}`),
anchored at line start `p0`:
`^[ ]{0,3}\[(.+)\]: [ \t]* \n? [ \t]* <?(\S+?)>? [ \t]* \n? [ \t]*
(?: (?<=\s) ['"(] (.+?) ['")] [ \t]* )? (?:\n+|\Z)` with re.X|re.M.
Returns (id, url, title, match end). -/
def matchLinkDef (lessThanTab : Nat) (t : Str) (p0 : Nat) : Option (Str × Str × Option Str × Nat) :=
  let quoteOpen : Char → Bool := fun c => c = Char.ofNat 39 || c = '"' || c = '('
  let quoteClose : Char → Bool := fun c => c = Char.ofNat 39 || c = '"' || c = ')'
  -- the optional title group (tried before its absence), then the final `\n+|\Z`
  let titleAndEnd : Nat → Option (Option Str × Nat) := fun q =>
    let withTitle : Option (Option Str × Nat) :=
      if decide (1 ≤ q) && (t.get? (q - 1)).any isPyWS then
        match t.get? q with
        | some op =>
          if quoteOpen op then
            let lineRun := runLen (· ≠ '\n') t (q + 1)
            (ascRange 1 lineRun).findSome? fun tl =>
              match t.get? (q + 1 + tl) with
              | some cl =>
                if quoteClose cl then
                  (descRange 0 (runLen isSpaceTab t (q + 1 + tl + 1))).findSome? fun w =>
                    (nlRunOrEnd t (q + 1 + tl + 1 + w)).map fun e =>
                      (some ((t.drop (q + 1)).take tl), e)
                else none
              | none => none
          else none
        | none => none
      else none
    match withTitle with
    | some r => some r
    | none => (nlRunOrEnd t q).map fun e => (none, e)
  (descRange 0 (min lessThanTab (runLen (· = ' ') t p0))).findSome? fun sp =>
    let p1 := p0 + sp
    if t.get? p1 = some '[' then
      let lineRun := runLen (· ≠ '\n') t (p1 + 1)
      (descRange 1 lineRun).findSome? fun idlen =>
        let pid := p1 + 1 + idlen
        if t.get? pid = some ']' && t.get? (pid + 1) = some ':' then
          let idg := (t.drop (p1 + 1)).take idlen
          (descRange 0 (runLen isSpaceTab t (pid + 2))).findSome? fun w1 =>
            (optChar t '\n' (pid + 2 + w1)).findSome? fun q2 =>
              (descRange 0 (runLen isSpaceTab t q2)).findSome? fun w2 =>
                (optChar t '<' (q2 + w2)).findSome? fun q3 =>
                  let nonWsRun := runLen (fun c => !(isPyWS c)) t q3
                  (ascRange 1 nonWsRun).findSome? fun ulen =>
                    let urlg := (t.drop q3).take ulen
                    (optChar t '>' (q3 + ulen)).findSome? fun q4 =>
                      (descRange 0 (runLen isSpaceTab t q4)).findSome? fun w3 =>
                        (optChar t '\n' (q4 + w3)).findSome? fun q5 =>
                          (descRange 0 (runLen isSpaceTab t q5)).findSome? fun w4 =>
                            (titleAndEnd (q5 + w4)).map fun te =>
                              (idg, urlg, te.1, te.2)
        else none
    else none

/-- `Markdown._extract_link_def_sub`: store the url (amps/angles encoded) and the
title (with `"` entity-encoded) under the lower-cased id. -/
def extract_link_def (ms : MState) (idg urlg : Str) (title : Option Str) : MState :=
  let key := lowerStr idg
  let ms := { ms with urls := alistPut ms.urls key (encode_amps_and_angles urlg) }
  match title with
  | some tl =>
    if tl ≠ [] then
      { ms with titles := alistPut ms.titles key (pyReplace tl ['"'] "&quot;".toList) }
    else ms
  | none => ms

/-- The `re.sub` driver for `_strip_link_definitions`: leftmost line-anchored
matches, non-overlapping, each replaced by the empty string. -/
def stripLinkDefsGo (lessThanTab : Nat) (t : Str) : Nat → Nat → MState → Str × MState
  | 0, pos, ms => (t.drop pos, ms)
  | fuel + 1, pos, ms =>
    let found := (ascRange pos t.length).findSome? fun p =>
      if lineStart t p then (matchLinkDef lessThanTab t p).map (fun r => (p, r)) else none
    match found with
    | none => (t.drop pos, ms)
    | some (p, (idg, urlg, title, e)) =>
      match stripLinkDefsGo lessThanTab t fuel e (extract_link_def ms idg urlg title) with
      | (rest, ms'') => ((t.drop pos).take (p - pos) ++ rest, ms'')

/-- `Markdown._strip_link_definitions`. -/
def strip_link_definitions (cfg : Config) (ms : MState) (t : Str) : Str × MState :=
  stripLinkDefsGo (cfg.tabWidth - 1) t (t.length + 1) 0 ms

/-! ## `_add_footnotes` -/

/-- `Markdown._add_footnotes`. -/
def add_footnotes (cfg : Config) (ms : MState) (text : Str) : Str :=
  if ms.footnotes ≠ [] then
    let items : List Str := ms.footnote_ids.enum.flatMap fun iid =>
      let i := iid.1
      let id := iid.2
      let paras := (alistGet ms.footnotes id).getD []
      let paraLines : List Str := paras.enum.map fun jp =>
        if jp.1 = paras.length - 1 then
          "<p>".toList ++ jp.2 ++ "&nbsp;<a href=\"#fnref-".toList ++ id
            ++ "\" class=\"footnoteBackLink\" title=\"Jump back to footnote ".toList
            ++ natToStr (i + 1) ++ " in the text.\">&#8617;</a></p>".toList
        else "<p>".toList ++ jp.2 ++ "</p>".toList
      (if i ≠ 0 then [([] : Str)] else [])
        ++ ["<li id=\"fn-".toList ++ id ++ "\">".toList]
        ++ paraLines ++ ["</li>".toList]
    let footer : List Str :=
      ["<div class=\"footnotes\">".toList, "<hr".toList ++ cfg.emptyElementSuffix,
       "<ol>".toList] ++ items ++ ["</ol>".toList, "</div>".toList]
    text ++ "\n\n".toList ++ joinWith ['\n'] footer
  else text

/-! ## `_sorta_html_tokenize_re` and `_escape_special_chars` -/

/-- Candidate end positions (after the closing quote) for a quoted attribute value
`".*?"` / `'.*?'`, lazily ordered; `.` excludes newlines (re.X only). -/
def attrValueEnds (t : Str) (v : Nat) (quote : Char) : List Nat :=
  let limit := runLen (· ≠ '\n') t (v + 1)
  (ascRange 0 limit).filterMap fun j =>
    if t.get? (v + 1 + j) = some quote then some (v + 2 + j) else none

/-- Candidate positions after the attribute group
`(?:\s+(?:[\w-]+:)?[\w-]+=(?:".*?"|'.*?'))*` of the tag alternative, in the
engine's preference order (more iterations first). -/
def tagAttrLoop (t : Str) : Nat → Nat → List Nat
  | 0, q => [q]
  | fuel + 1, q =>
    let isNm : Char → Bool := fun c => isWordChar c || c = '-'
    let iters : List Nat :=
      (descRange 1 (runLen isPyWS t q)).flatMap fun w =>
        let a := q + w
        let withNs : List Nat :=
          let r := runLen isNm t a
          if decide (1 ≤ r) && t.get? (a + r) = some ':' then [a + r + 1] else []
        (withNs ++ [a]).flatMap fun b =>
          let rn := runLen isNm t b
          if decide (1 ≤ rn) && t.get? (b + rn) = some '=' then
            match t.get? (b + rn + 1) with
            | some '"' => attrValueEnds t (b + rn + 1) '"'
            | some c =>
              if c = Char.ofNat 39 then attrValueEnds t (b + rn + 1) (Char.ofNat 39)
              else []
            | none => []
          else []
    (iters.flatMap fun e => tagAttrLoop t fuel e) ++ [q]

/-- Matcher for one token of `_sorta_html_tokenize_re` at position `p`
(tag, auto-link, comment, or processing instruction, tried in that order);
returns the end position. -/
def matchTokenize (t : Str) (p : Nat) : Option Nat :=
  if t.get? p = some '<' then
    let tagAlt : Option Nat :=
      let q0 := if t.get? (p + 1) = some '/' then p + 2 else p + 1
      let nr := runLen isWordChar t q0
      if 1 ≤ nr then
        (tagAttrLoop t (t.length + 1) (q0 + nr)).findSome? fun e =>
          (descRange 0 (runLen isPyWS t e)).findSome? fun w =>
            (optChar t '/' (e + w)).findSome? fun f =>
              if t.get? f = some '>' then some (f + 1) else none
      else none
    let autoAlt : Option Nat :=
      let nr := runLen isWordChar t (p + 1)
      if 1 ≤ nr then
        let rr := runLen (· ≠ '>') t (p + 1 + nr)
        if t.get? (p + 1 + nr + rr) = some '>' then some (p + 1 + nr + rr + 1) else none
      else none
    let commentAlt : Option Nat :=
      if "<!--".toList.isPrefixOf (t.drop p) then
        let limit := runLen (· ≠ '\n') t (p + 4)
        (ascRange 0 limit).findSome? fun j =>
          if "-->".toList.isPrefixOf (t.drop (p + 4 + j)) then some (p + 4 + j + 3) else none
      else none
    let piAlt : Option Nat :=
      if "<?".toList.isPrefixOf (t.drop p) then
        let limit := runLen (· ≠ '\n') t (p + 2)
        (ascRange 0 limit).findSome? fun j =>
          if "?>".toList.isPrefixOf (t.drop (p + 2 + j)) then some (p + 2 + j + 2) else none
      else none
    tagAlt <|> autoAlt <|> commentAlt <|> piAlt
  else none

/-- `_sorta_html_tokenize_re.split(text)` as a list of (piece, is-markup) pairs. -/
def tokenizeSplitGo (t : Str) : Nat → Nat → List (Str × Bool)
  | 0, pos => [(t.drop pos, false)]
  | fuel + 1, pos =>
    let found := (ascRange pos t.length).findSome? fun p =>
      (matchTokenize t p).map fun e => (p, e)
    match found with
    | none => [(t.drop pos, false)]
    | some (p, e) =>
      ((t.drop pos).take (p - pos), false) :: ((t.drop p).take (e - p), true)
        :: tokenizeSplitGo t fuel e

/-- `Markdown._escape_special_chars`. -/
def escape_special_chars (cfg : Config) (t : Str) : Str :=
  (tokenizeSplitGo t (t.length + 1) 0).flatMap fun piece =>
    if piece.2 then
      if cfg.safeMode then HTML_REMOVED_TEXT
      else escapeStarUnderscore piece.1
    else encode_backslash_escapes piece.1

/-! ## Code spans (`_do_code_spans`) -/

/-- Matcher for `_code_span_re` at position `p`:
`(` ++ "`+" ++ `)(.+?)(?<!` ++ "`" ++ `)\1(?!` ++ "`" ++ `)` with re.S.
Returns (group 2, end). -/
def matchCodeSpan (t : Str) (p : Nat) : Option (Str × Nat) :=
  let bt : Char := Char.ofNat 96
  let run := runLen (· = bt) t p
  if 1 ≤ run then
    (descRange 1 run).findSome? fun n =>
      let b := p + n
      (ascRange 1 (t.length - b)).findSome? fun bl =>
        let v := b + bl
        match t.get? (v - 1) with
        | some cl =>
          if cl ≠ bt && (List.replicate n bt).isPrefixOf (t.drop v)
              && t.get? (v + n) ≠ some bt then
            some ((t.drop b).take bl, v + n)
          else none
        | none => none
  else none

/-- `Markdown._code_span_sub`. -/
def code_span_sub (g2 : Str) : Str :=
  "<code>".toList ++ encode_code (stripBy isSpaceTab g2) ++ "</code>".toList

/-- Generic `re.sub` scanner with stateless replacement: leftmost matches,
non-overlapping, scanning resumes at each match end. -/
def reSubPureGo (m : Str → Nat → Option (α × Nat)) (repl : α → Str) (t : Str) :
    Nat → Nat → Str
  | 0, pos => t.drop pos
  | fuel + 1, pos =>
    let found := (ascRange pos t.length).findSome? fun p =>
      (m t p).map fun r => (p, r)
    match found with
    | none => t.drop pos
    | some (p, (caps, e)) =>
      (t.drop pos).take (p - pos) ++ repl caps
        ++ reSubPureGo m repl t fuel (max e (p + 1))

def reSubPure (m : Str → Nat → Option (α × Nat)) (repl : α → Str) (t : Str) : Str :=
  reSubPureGo m repl t (t.length + 1) 0

/-- `Markdown._do_code_spans`. -/
def do_code_spans (t : Str) : Str :=
  reSubPure (fun t p => (matchCodeSpan t p).map (fun r => (r.1, r.2))) code_span_sub t

/-! ## Auto-links (`_do_auto_links`) -/

/-- Matcher for `_auto_link_re`: `<((https?|ftp):[^\'">\s]+)>` with re.I. -/
def matchAutoLink (t : Str) (p : Nat) : Option (Str × Nat) :=
  if t.get? p = some '<' then
    let schemes : List Str := ["https".toList, "http".toList, "ftp".toList]
    schemes.findSome? fun sch =>
      if lowerStr ((t.drop (p + 1)).take sch.length) = sch then
        let q := p + 1 + sch.length
        if t.get? q = some ':' then
          let bad : Char → Bool := fun c =>
            c = Char.ofNat 39 || c = '"' || c = '>' || isPyWS c
          let run := runLen (fun c => !(bad c)) t (q + 1)
          if decide (1 ≤ run) && t.get? (q + 1 + run) = some '>' then
            some ((t.drop (p + 1)).take (sch.length + 1 + run), q + 1 + run + 1)
          else none
        else none
      else none
  else none

def isEmailLocalChar (c : Char) : Bool := isWordChar c || c = '-' || c = '.'
def isEmailDomChar (c : Char) : Bool := isWordChar c || c = '-'

/-- Domain-part parse for `_auto_email_link_re` after the `@`:
`[-\w]+(\.[-\w]+)*\.[a-zA-Z]+` followed by `>`.  As analysed from the pattern's
backtracking, this succeeds exactly when the dot-separated segments exist, there
are at least two, and the final segment is purely alphabetic and followed by `>`.
Returns the position after the closing `>`. -/
def emailDomainEnd (t : Str) : Nat → Nat → Option Nat
  | 0, _ => none
  | fuel + 1, d =>
    let r := runLen isEmailDomChar t d
    if 1 ≤ r then
      if t.get? (d + r) = some '.' then
        match emailDomainEnd t fuel (d + r + 1) with
        | some e => some e
        | none =>
          -- this segment is `[-\w]+`; the next must be the final `\.[a-zA-Z]+>`
          let r2 := runLen isEmailDomChar t (d + r + 1)
          if decide (1 ≤ r2) && ((t.drop (d + r + 1)).take r2).all isAsciiLetter
              && t.get? (d + r + 1 + r2) = some '>' then
            some (d + r + 1 + r2 + 1)
          else none
      else none
    else none

/-- Matcher for `_auto_email_link_re`:
`<(?:mailto:)?([-.\w]+\@[-\w]+(\.[-\w]+)*\.[a-zA-Z]+)>` with re.I|re.X.
Returns (group 1, end). -/
def matchAutoEmail (t : Str) (p : Nat) : Option (Str × Nat) :=
  if t.get? p = some '<' then
    let tryFrom : Nat → Option (Str × Nat) := fun a =>
      let lr := runLen isEmailLocalChar t a
      if decide (1 ≤ lr) && t.get? (a + lr) = some '@' then
        (emailDomainEnd t (t.length + 1) (a + lr + 1)).map fun e =>
          ((t.drop a).take (e - 1 - a), e)
      else none
    if lowerStr ((t.drop (p + 1)).take 7) = "mailto:".toList then
      match tryFrom (p + 8) with
      | some r => some r
      | none => tryFrom (p + 1)
    else tryFrom (p + 1)
  else none

/-- The e-mail substitution of `_do_auto_links`, threading the random stream:
scanning is leftmost, and each match consumes `7 + len(addr)` draws.  Returns
the text and the index of the next unconsumed draw. -/
def autoEmailSubGo (rs : Nat → ℚ) (t : Str) : Nat → Nat → Nat → Str × Nat
  | 0, pos, ridx => (t.drop pos, ridx)
  | fuel + 1, pos, ridx =>
    let found := (ascRange pos t.length).findSome? fun p =>
      (matchAutoEmail t p).map fun r => (p, r)
    match found with
    | none => (t.drop pos, ridx)
    | some (p, (g1, e)) =>
      match unescape_special_chars g1 with
      | addr =>
        match autoEmailSubGo rs t fuel (max e (p + 1)) (ridx + 7 + addr.length) with
        | (rest, ridx') =>
          ((t.drop pos).take (p - pos)
            ++ encode_email_address (fun i => rs (ridx + i)) addr ++ rest, ridx')

/-- `Markdown._do_auto_links`; returns the text together with the index of the
next unconsumed random draw. -/
def do_auto_links (rs : Nat → ℚ) (t : Str) (ridx : Nat) : Str × Nat :=
  match reSubPure matchAutoLink
      (fun g1 => "<a href=\"".toList ++ g1 ++ "\">".toList ++ g1 ++ "</a>".toList) t with
  | t1 => autoEmailSubGo rs t1 (t1.length + 1) 0 ridx

/-! ## Emphasis and hard breaks -/

/-- Matcher for `_strong_re` / `_code_friendly_strong_re`: returns (body group, end). -/
def matchStrong (codeFriendly : Bool) (t : Str) (p : Nat) : Option (Str × Nat) :=
  let delims : List Str := if codeFriendly then [['*', '*']] else [['*', '*'], ['_', '_']]
  delims.findSome? fun d =>
    if d.isPrefixOf (t.drop p) then
      let b := p + 2
      match t.get? b with
      | some c =>
        if isPyWS c then none
        else
          (ascRange 1 (t.length - b)).findSome? fun bl =>
            let m0 := runLen (fun c => c = '*' || c = '_') t (b + bl)
            (descRange 0 m0).findSome? fun m =>
              let v := b + bl + m
              match t.get? (v - 1) with
              | some cl =>
                if !(isPyWS cl) && d.isPrefixOf (t.drop v) then
                  some ((t.drop b).take (bl + m), v + 2)
                else none
              | none => none
      | none => none
    else none

/-- Matcher for `_em_re` / `_code_friendly_em_re`: `(\*|_)(?=\S)(.+?)(?<=\S)\1`. -/
def matchEm (codeFriendly : Bool) (t : Str) (p : Nat) : Option (Str × Nat) :=
  let delims : List Char := if codeFriendly then ['*'] else ['*', '_']
  delims.findSome? fun d =>
    if t.get? p = some d then
      let b := p + 1
      match t.get? b with
      | some c =>
        if isPyWS c then none
        else
          (ascRange 1 (t.length - b)).findSome? fun bl =>
            let v := b + bl
            match t.get? (v - 1) with
            | some cl =>
              if !(isPyWS cl) && t.get? v = some d then
                some ((t.drop b).take bl, v + 1)
              else none
            | none => none
      | none => none
    else none

/-- `Markdown._do_italics_and_bold` (strong first, then em). -/
def do_italics_and_bold (cfg : Config) (t : Str) : Str :=
  let t := reSubPure (matchStrong cfg.extras.codeFriendly)
    (fun g => "<strong>".toList ++ g ++ "</strong>".toList) t
  reSubPure (matchEm cfg.extras.codeFriendly)
    (fun g => "<em>".toList ++ g ++ "</em>".toList) t

/-- The hard-break substitution `re.sub(r" {2,}\n", " <br%s\n" % suffix, text)`. -/
def hardBreaksGo (cfg : Config) : List Str → List Str
  | [] => []
  | [l] => [l]   -- the final piece is not followed by a newline
  | l :: rest =>
    (if decide (2 ≤ (l.reverse.takeWhile (· = ' ')).length) then
       rstripBy (· = ' ') l ++ " <br".toList ++ cfg.emptyElementSuffix
     else l) :: hardBreaksGo cfg rest

def hardBreaks (cfg : Config) (t : Str) : Str :=
  joinWith ['\n'] (hardBreaksGo cfg (splitOnChar '\n' t))

/-! ## `_do_link_patterns` -/

/-- `Markdown._do_link_patterns` over the externally supplied rules. -/
def do_link_patterns (cfg : Config) (t : Str) : Str :=
  let step := fun (acc : Str × List (Str × Str)) (rule : LinkRule) =>
    let t := acc.1
    let repls := rule.finditer t
    repls.reverse.foldl
      (fun (acc2 : Str × List (Str × Str)) spanHref =>
        let t2 := acc2.1
        let start := spanHref.1.1
        let stop := spanHref.1.2
        let href := spanHref.2
        let escaped_href :=
          escapeStarUnderscore (pyReplace href ['"'] "&quot;".toList)
        let link := "<a href=\"".toList ++ escaped_href ++ "\">".toList
          ++ ((t2.drop start).take (stop - start)) ++ "</a>".toList
        let hash := md5hexdigest link
        (t2.take start ++ hash ++ t2.drop stop, acc2.2 ++ [(hash, link)]))
      (t, acc.2)
  let res := cfg.linkPatternRules.foldl step (t, [])
  res.2.foldl (fun t2 hl => pyReplace t2 hl.1 hl.2) res.1

/-! ## `_run_span_gamut` -/

/-- The per-call mutable context threaded through the pipeline: the side tables
and the index of the next unconsumed random draw. -/
structure GState where
  ms : MState
  ridx : Nat
deriving Repr

/-- `Markdown._run_span_gamut`. -/
def run_span_gamut (cfg : Config) (rs : Nat → ℚ) (t : Str) (g : GState) : Str × GState :=
  let t := do_code_spans t
  let t := escape_special_chars cfg t
  match do_links cfg g.ms t with
  | (t, ms') =>
    match do_auto_links rs t g.ridx with
    | (t, ridx') =>
      let t := if cfg.extras.linkPatterns then do_link_patterns cfg t else t
      let t := encode_amps_and_angles t
      let t := do_italics_and_bold cfg t
      let t := hardBreaks cfg t
      (t, { ms := ms', ridx := ridx' })

/-! ## Generic stateful `re.sub` scanner -/

/-- `re.sub` with a stateful replacement callback: leftmost matches,
non-overlapping, scanning resumes at each match end. -/
def reSubStGo (m : Str → Nat → Option (α × Nat)) (repl : α → σ → Str × σ) (t : Str) :
    Nat → Nat → σ → Str × σ
  | 0, pos, st => (t.drop pos, st)
  | fuel + 1, pos, st =>
    let found := (ascRange pos t.length).findSome? fun p =>
      (m t p).map fun r => (p, r)
    match found with
    | none => (t.drop pos, st)
    | some (p, (caps, e)) =>
      match repl caps st with
      | (r, st') =>
        match reSubStGo m repl t fuel (max e (p + 1)) st' with
        | (rest, st'') => ((t.drop pos).take (p - pos) ++ r ++ rest, st'')

def reSubSt (m : Str → Nat → Option (α × Nat)) (repl : α → σ → Str × σ)
    (t : Str) (st : σ) : Str × σ :=
  reSubStGo m repl t (t.length + 1) 0 st

/-! ## Headers (`_do_headers`) -/

/-- Matcher for `_setext_h_re = ^(.+)[ \t]*\n(=+|-+)[ \t]*\n+` (re.M); the greedy
`(.+)` always captures the whole line.  Returns ((group 1, level), end). -/
def matchSetext (t : Str) (p : Nat) : Option ((Str × Nat) × Nat) :=
  if lineStart t p then
    let ll := runLen (· ≠ '\n') t p
    if decide (1 ≤ ll) && t.get? (p + ll) = some '\n' then
      let q := p + ll + 1
      [('=', 1), ('-', 2)].findSome? fun cl =>
        let run := runLen (· = cl.1) t q
        if 1 ≤ run then
          let w := runLen isSpaceTab t (q + run)
          let nr := runLen (· = '\n') t (q + run + w)
          if 1 ≤ nr then some (((t.drop p).take ll, cl.2), q + run + w + nr) else none
        else none
    else none
  else none

/-- Matcher for `_atx_h_re = ^(\#{1,6})[ \t]*(.+?)[ \t]*\#*\n+` (re.X|re.M). -/
def matchAtx (t : Str) (p : Nat) : Option ((Str × Nat) × Nat) :=
  if lineStart t p && t.get? p = some '#' then
    let hr := runLen (· = '#') t p
    (descRange 1 (min 6 hr)).findSome? fun h =>
      let q := p + h
      (descRange 0 (runLen isSpaceTab t q)).findSome? fun w1 =>
        let b := q + w1
        let ll := runLen (· ≠ '\n') t b
        (ascRange 1 ll).findSome? fun g2 =>
          let v := b + g2
          (descRange 0 (runLen isSpaceTab t v)).findSome? fun w2 =>
            (descRange 0 (runLen (· = '#') t (v + w2))).findSome? fun hs =>
              let z := v + w2 + hs
              let nr := runLen (· = '\n') t z
              if 1 ≤ nr then some (((t.drop b).take g2, h), z + nr) else none
  else none

/-! ## Horizontal rules (`_hr_res`) -/

/-- The `([ ]?M[ ]?){3,}` repetition with trailing `[ \t]*$`, full backtracking. -/
def hrRepsGo (mark : Char) : Nat → Str → Nat → Bool
  | 0, _, _ => false
  | fuel + 1, s, k =>
    (decide (3 ≤ k) && s.all isSpaceTab)
      || (match s with
          | ' ' :: c :: rest =>
            if c = mark then
              (match rest with
               | ' ' :: r2 => hrRepsGo mark fuel r2 (k + 1)
               | _ => false)
              || hrRepsGo mark fuel rest (k + 1)
            else false
          | _ => false)
      || (match s with
          | c :: rest =>
            if c = mark then
              (match rest with
               | ' ' :: r2 => hrRepsGo mark fuel r2 (k + 1)
               | _ => false)
              || hrRepsGo mark fuel rest (k + 1)
            else false
          | _ => false)

/-- One line matched against `^[ ]{0,2}([ ]?M[ ]?){3,}[ \t]*$`. -/
def hrLine (mark : Char) (l : Str) : Bool :=
  (List.range 3).any fun lead =>
    (List.replicate lead ' ').isPrefixOf l && hrRepsGo mark (l.length + 1) (l.drop lead) 0

/-- The three horizontal-rule substitutions of `_run_block_gamut`. -/
def do_hr (cfg : Config) (t : Str) : Str :=
  let hr := "\n<hr".toList ++ cfg.emptyElementSuffix ++ ['\n']
  ['*', '-', '_'].foldl
    (fun t mark =>
      joinWith ['\n'] ((splitOnChar '\n' t).map fun l => if hrLine mark l then hr else l))
    t

/-! ## Lists: the `whole_list` and `_list_item_re` matchers -/

/-- Marker parse `(?:[*+-]|\d+[.])` at `q`: returns (marker string, end). -/
def matchMarker (t : Str) (q : Nat) : Option (Str × Nat) :=
  match t.get? q with
  | some c =>
    if c = '*' || c = '+' || c = '-' then some ([c], q + 1)
    else
      let dr := runLen isAsciiDigit t q
      if decide (1 ≤ dr) && t.get? (q + dr) = some '.' then
        some ((t.drop q).take (dr + 1), q + dr + 1)
      else none
  | none => none

/-- The negative lookahead `[ \t]*MARKER[ \t]+` at `u`. -/
def markerAhead (t : Str) (u : Nat) : Bool :=
  let w := runLen isSpaceTab t u
  match matchMarker t (u + w) with
  | some me => decide (1 ≤ runLen isSpaceTab t me.2)
  | none => false

/-- The `whole_list` body at `q` (after the position prefix):
`(([ ]{0,3}(marker)[ \t]+)(?:.+?)(\Z|\n{2,}(?=\S)(?![ \t]*marker[ \t]+)))`
with re.X|re.M|re.S.  Returns (group 1, group 3 marker, match end). -/
def matchWholeListAt (t : Str) (q : Nat) : Option (Str × Str × Nat) :=
  (descRange 0 (min 3 (runLen (· = ' ') t q))).findSome? fun sp =>
    match matchMarker t (q + sp) with
    | none => none
    | some (mk, me) =>
      (descRange 1 (runLen isSpaceTab t me)).findSome? fun w =>
        let b := me + w
        (ascRange 1 (t.length - b)).findSome? fun bl =>
          let v := b + bl
          let g4end : Option Nat :=
            if v = t.length then some v
            else
              let nr := runLen (· = '\n') t v
              (descRange 2 nr).findSome? fun m =>
                match t.get? (v + m) with
                | some c =>
                  if !(isPyWS c) && !(markerAhead t (v + m)) then some (v + m) else none
                | none => none
          g4end.map fun e => ((t.drop q).take (e - q), mk, e)

/-- The top-level `list_re`: prefix `(?:(?<=\n\n)|\A\n?)` then the list body.
The match spans from `p` (so a leading newline consumed by `\A\n?` is replaced). -/
def matchListTop (t : Str) (p : Nat) : Option ((Str × Str) × Nat) :=
  if p = 0 then
    match (if t.get? 0 = some '\n' then matchWholeListAt t 1 else none) with
    | some (g1, mk, e) => some ((g1, mk), e)
    | none => (matchWholeListAt t 0).map fun r => ((r.1, r.2.1), r.2.2)
  else if decide (2 ≤ p) && t.get? (p - 2) = some '\n' && t.get? (p - 1) = some '\n' then
    (matchWholeListAt t p).map fun r => ((r.1, r.2.1), r.2.2)
  else none

/-- The nested `sub_list_re`: `^` then the list body. -/
def matchListNested (t : Str) (p : Nat) : Option ((Str × Str) × Nat) :=
  if lineStart t p then (matchWholeListAt t p).map fun r => ((r.1, r.2.1), r.2.2)
  else none

/-- Matcher for `_list_item_re` at `p`:
`(\n)?(^[ \t]*)(marker)[ \t]+((?:.+?)(\n{1,2}))(?=\n*(\Z|\2(marker)[ \t]+))`
with re.M|re.X|re.S.  Returns ((leading-line?, item group 4, eols length), end). -/
def matchListItem (t : Str) (p : Nat) : Option ((Bool × Str × Nat) × Nat) :=
  let tryAt : Bool → Nat → Option ((Bool × Str × Nat) × Nat) := fun lead q =>
    if lineStart t q then
      (descRange 0 (runLen isSpaceTab t q)).findSome? fun w =>
        let g2 := (t.drop q).take w
        match matchMarker t (q + w) with
        | none => none
        | some (_, me) =>
          (descRange 1 (runLen isSpaceTab t me)).findSome? fun w2 =>
            let b := me + w2
            (ascRange 1 (t.length - b)).findSome? fun bl =>
              let v := b + bl
              let nr := min 2 (runLen (· = '\n') t v)
              (descRange 1 nr).findSome? fun m =>
                let u := v + m
                let la :=
                  (descRange 0 (runLen (· = '\n') t u)).any fun w3 =>
                    let z := u + w3
                    decide (z = t.length)
                      || (g2.isPrefixOf (t.drop z)
                          && (match matchMarker t (z + g2.length) with
                              | some me2 => decide (1 ≤ runLen isSpaceTab t me2.2)
                              | none => false))
                if la then some ((lead, (t.drop b).take (bl + m), m), u) else none
    else none
  if t.get? p = some '\n' then
    match tryAt true (p + 1) with
    | some r => some r
    | none => tryAt false p
  else tryAt false p

/-! ## Code-block extraction matcher -/

/-- `((?:[ ]{tw}|\t).*\n+)+` followed by the lookahead `(?=^[ ]{0,tw}\S)` or `\Z`,
in full backtracking order (greedy repetition first).  Returns the end of
group 1 (which is also the match end: the lookahead is zero-width). -/
def codeBlockLinesEnd (tw : Nat) (t : Str) : Nat → Nat → Bool → Option Nat
  | 0, _, _ => none
  | fuel + 1, u, started =>
    let iter : Option Nat :=
      let ind : Option Nat :=
        if (List.replicate tw ' ').isPrefixOf (t.drop u) then some (u + tw)
        else if t.get? u = some '\t' then some (u + 1)
        else none
      match ind with
      | none => none
      | some a =>
        let ll := runLen (· ≠ '\n') t a
        let nr := runLen (· = '\n') t (a + ll)
        if 1 ≤ nr then
          (descRange 1 nr).findSome? fun m =>
            codeBlockLinesEnd tw t fuel (a + ll + m) true
        else none
    match iter with
    | some e => some e
    | none =>
      if started then
        let sr := runLen (· = ' ') t u
        if decide (sr ≤ tw) && (t.get? (u + sr)).any (fun c => !(isPyWS c)) then some u
        else if u = t.length then some u
        else none
      else none

/-- Matcher for `code_block_re` at `p` (prefix `(?:\n\n|\A)`). -/
def matchCodeBlock (tw : Nat) (t : Str) (p : Nat) : Option (Str × Nat) :=
  let inner : Nat → Option (Str × Nat) := fun q =>
    (codeBlockLinesEnd tw t (t.length + 1) q false).map fun e =>
      ((t.drop q).take (e - q), e)
  let viaNl :=
    if t.get? p = some '\n' && t.get? (p + 1) = some '\n' then inner (p + 2) else none
  match viaNl with
  | some r => some r
  | none => if p = 0 then inner 0 else none

/-- `Markdown._do_code_blocks` (the substitution may raise through
`_code_block_sub`). -/
def doCodeBlocksGo (cfg : Config) (t : Str) : Nat → Nat → Except Str Str
  | 0, pos => .ok (t.drop pos)
  | fuel + 1, pos =>
    let found := (ascRange pos t.length).findSome? fun p =>
      (matchCodeBlock cfg.tabWidth t p).map fun r => (p, r)
    match found with
    | none => .ok (t.drop pos)
    | some (p, (g1, e)) =>
      match code_block_sub cfg g1 with
      | .error err => .error err
      | .ok r =>
        (doCodeBlocksGo cfg t fuel (max e (p + 1))).map fun rest =>
          (t.drop pos).take (p - pos) ++ r ++ rest

def do_code_blocks (cfg : Config) (t : Str) : Except Str Str :=
  doCodeBlocksGo cfg t (t.length + 1) 0

/-! ## Block-quote matcher and helpers -/

-- The repeated unit(s) `(^[ \t]*>[ \t]?.+\n(.+\n)*\n*)+`, greedy DFS.
-- `bqUnits` parses one `>`-headed unit and continues; `bqCont` handles the
-- `(.+\n)*\n*` tail and the greedy repetition.
mutual

/-- One `>`-headed unit of `_block_quote_re` starting at `u`. -/
def bqUnits (t : Str) : Nat → Nat → Option Nat
  | 0, _ => none
  | fuel + 1, u =>
    let w := runLen isSpaceTab t u
    if t.get? (u + w) = some '>' then
      let afterGt := u + w + 1
      let opts : List Nat :=
        match t.get? afterGt with
        | some c => if isSpaceTab c then [afterGt + 1, afterGt] else [afterGt]
        | none => [afterGt]
      opts.findSome? fun a =>
        let ll := runLen (· ≠ '\n') t a
        if decide (1 ≤ ll) && t.get? (a + ll) = some '\n' then
          bqCont t fuel (a + ll + 1)
        else none
    else none

/-- The `(.+\n)*\n*` tail and greedy repetition of `_block_quote_re`. -/
def bqCont (t : Str) : Nat → Nat → Option Nat
  | 0, _ => none
  | fuel + 1, v =>
    let more : Option Nat :=
      let ll := runLen (· ≠ '\n') t v
      if decide (1 ≤ ll) && t.get? (v + ll) = some '\n' then bqCont t fuel (v + ll + 1)
      else none
    match more with
    | some e => some e
    | none =>
      let nr := runLen (· = '\n') t v
      (descRange 0 nr).findSome? fun m =>
        match bqUnits t fuel (v + m) with
        | some e => some e
        | none => some (v + m)

end

/-- Matcher for `_block_quote_re` at `p`. -/
def matchBlockQuote (t : Str) (p : Nat) : Option (Str × Nat) :=
  if lineStart t p then
    (bqUnits t (t.length + 1) p).map fun e => ((t.drop p).take (e - p), e)
  else none

/-- `_bq_one_level_re.sub('', bq)`: per line, strip `[ \t]*>[ \t]?`. -/
def bqTrimOneLevel (s : Str) : Str :=
  joinWith ['\n'] ((splitOnChar '\n' s).map fun l =>
    let w := runLen isSpaceTab l 0
    if l.get? w = some '>' then
      let rest := l.drop (w + 1)
      match rest with
      | c :: cs => if isSpaceTab c then cs else rest
      | [] => []
    else l)

/-- `re.sub('(?m)^', '  ', bq)`. -/
def indentTwoSpaces (s : Str) : Str :=
  joinWith ['\n'] ((splitOnChar '\n' s).map (fun l => ' ' :: ' ' :: l))

/-- `_dedent_two_spaces_sub`: `re.sub(r'(?m)^  ', '', ...)`. -/
def dedentTwoSpaces (s : Str) : Str :=
  joinWith ['\n'] ((splitOnChar '\n' s).map fun l =>
    if "  ".toList.isPrefixOf l then l.drop 2 else l)

/-- Matcher for `_html_pre_block_re = (\s*<pre>.+?</pre>)` with re.S. -/
def matchPreBlock (t : Str) (p : Nat) : Option (Str × Nat) :=
  let w := runLen isPyWS t p
  if "<pre>".toList.isPrefixOf (t.drop (p + w)) then
    (ascRange 1 (t.length - (p + w + 5))).findSome? fun j =>
      if "</pre>".toList.isPrefixOf (t.drop (p + w + 5 + j)) then
        some ((t.drop p).take (w + 5 + j + 6), p + w + 5 + j + 6)
      else none
  else none

/-- The `<pre>`-protecting dedent pass of `_block_quote_sub`. -/
def fixPreBlocks (s : Str) : Str :=
  reSubPure matchPreBlock dedentTwoSpaces s

/-! ## Raw-HTML-block hashing (`_hash_html_blocks`) -/

def blockTagsA : List Str :=
  ["p", "div", "h1", "h2", "h3", "h4", "h5", "h6", "blockquote", "pre", "table",
   "dl", "ol", "ul", "script", "noscript", "form", "fieldset", "iframe", "math",
   "ins", "del"].map String.toList

def blockTagsB : List Str :=
  ["p", "div", "h1", "h2", "h3", "h4", "h5", "h6", "blockquote", "pre", "table",
   "dl", "ol", "ul", "script", "noscript", "form", "fieldset", "iframe",
   "math"].map String.toList

/-- Tag-name alternation with the trailing `\b`. -/
def matchBlockTag (tags : List Str) (t : Str) (q : Nat) : Option Str :=
  tags.findSome? fun tag =>
    if tag.isPrefixOf (t.drop q) && !((t.get? (q + tag.length)).any isWordChar) then
      some tag
    else none

/-- `(.*\n)*?</TAG>[ \t]*(?=\n+|\Z)` from position `u` (lazy line repetition). -/
def strictTagEnd (t : Str) (tag : Str) : Nat → Nat → Option Nat
  | 0, _ => none
  | fuel + 1, u =>
    let closeHere : Option Nat :=
      if ("</".toList ++ tag ++ ['>']).isPrefixOf (t.drop u) then
        let e := u + 2 + tag.length + 1
        let w := runLen isSpaceTab t e
        if t.get? (e + w) = some '\n' || e + w = t.length then some (e + w) else none
      else none
    match closeHere with
    | some e => some e
    | none =>
      let ll := runLen (· ≠ '\n') t u
      if t.get? (u + ll) = some '\n' then strictTagEnd t tag fuel (u + ll + 1)
      else none

/-- Matcher for `_strict_tag_block_re` at `p`. -/
def matchStrictTagBlock (t : Str) (p : Nat) : Option (Str × Nat) :=
  if lineStart t p && t.get? p = some '<' then
    match matchBlockTag blockTagsA t (p + 1) with
    | some tag =>
      (strictTagEnd t tag (t.length + 1) (p + 1 + tag.length)).map fun e =>
        ((t.drop p).take (e - p), e)
    | none => none
  else none

/-- `(.*\n)*?.*</TAG>[ \t]*(?=\n+|\Z)`: lazily over whole lines, and within the
final line the greedy `.*` prefers the last closing tag. -/
def liberalTagEnd (t : Str) (tag : Str) : Nat → Nat → Option Nat
  | 0, _ => none
  | fuel + 1, u =>
    let ll := runLen (· ≠ '\n') t u
    let inLine : Option Nat :=
      (descRange 0 ll).findSome? fun o =>
        if ("</".toList ++ tag ++ ['>']).isPrefixOf (t.drop (u + o)) then
          let e := u + o + 2 + tag.length + 1
          let w := runLen isSpaceTab t e
          if t.get? (e + w) = some '\n' || e + w = t.length then some (e + w) else none
        else none
    match inLine with
    | some e => some e
    | none =>
      if t.get? (u + ll) = some '\n' then liberalTagEnd t tag fuel (u + ll + 1)
      else none

/-- Matcher for `_liberal_tag_block_re` at `p`. -/
def matchLiberalTagBlock (t : Str) (p : Nat) : Option (Str × Nat) :=
  if lineStart t p && t.get? p = some '<' then
    match matchBlockTag blockTagsB t (p + 1) with
    | some tag =>
      (liberalTagEnd t tag (t.length + 1) (p + 1 + tag.length)).map fun e =>
        ((t.drop p).take (e - p), e)
    | none => none
  else none

/-- Matcher for `_hr_tag_re_from_tab_width` at `p`
(`(?:(?<=\n\n)|\A\n?)([ ]{0,tw-1}<(hr)\b([^<>])*?/?>[ \t]*(?=\n{2,}|\Z))`). -/
def matchHrTag (tw : Nat) (t : Str) (p : Nat) : Option (Str × Nat) :=
  let inner : Nat → Option (Str × Nat) := fun q =>
    (descRange 0 (min (tw - 1) (runLen (· = ' ') t q))).findSome? fun sp =>
      let q1 := q + sp
      if "<hr".toList.isPrefixOf (t.drop q1)
          && !((t.get? (q1 + 3)).any isWordChar) then
        let q2 := q1 + 3
        let classRun := runLen (fun c => c ≠ '<' && c ≠ '>') t q2
        (ascRange 0 classRun).findSome? fun j =>
          (optChar t '/' (q2 + j)).findSome? fun f =>
            if t.get? f = some '>' then
              let w := runLen isSpaceTab t (f + 1)
              let z := f + 1 + w
              if decide (2 ≤ runLen (· = '\n') t z) || decide (z = t.length) then
                some ((t.drop q).take (z - q), z)
              else none
            else none
      else none
  if decide (2 ≤ p) && t.get? (p - 2) = some '\n' && t.get? (p - 1) = some '\n' then
    inner p
  else if p = 0 then
    match (if t.get? 0 = some '\n' then inner 1 else none) with
    | some r => some r
    | none => inner 0
  else none

/-- `(--.*?--\s*)+` then `>` of the standalone-comment pattern (re.S). -/
def commentUnits (t : Str) : Nat → Nat → Option Nat
  | 0, _ => none
  | fuel + 1, u =>
    if "--".toList.isPrefixOf (t.drop u) then
      (ascRange 0 (t.length - (u + 2))).findSome? fun j =>
        if "--".toList.isPrefixOf (t.drop (u + 2 + j)) then
          let e0 := u + 2 + j + 2
          (descRange 0 (runLen isPyWS t e0)).findSome? fun w =>
            match commentUnits t fuel (e0 + w) with
            | some e => some e
            | none => if t.get? (e0 + w) = some '>' then some (e0 + w + 1) else none
        else none
    else none

/-- Matcher for `_html_comment_re_from_tab_width` at `p`. -/
def matchHtmlComment (tw : Nat) (t : Str) (p : Nat) : Option (Str × Nat) :=
  let inner : Nat → Option (Str × Nat) := fun q =>
    (descRange 0 (min (tw - 1) (runLen (· = ' ') t q))).findSome? fun sp =>
      let q1 := q + sp
      if "<!".toList.isPrefixOf (t.drop q1) then
        (commentUnits t (t.length + 1) (q1 + 2)).bind fun e =>
          let w := runLen isSpaceTab t e
          let z := e + w
          if decide (2 ≤ runLen (· = '\n') t z) || decide (z = t.length) then
            some ((t.drop q).take (z - q), z)
          else none
      else none
  if decide (2 ≤ p) && t.get? (p - 2) = some '\n' && t.get? (p - 1) = some '\n' then
    inner p
  else if p = 0 then
    match (if t.get? 0 = some '\n' then inner 1 else none) with
    | some r => some r
    | none => inner 0
  else none

/-- `Markdown._hash_html_block_sub`. -/
def hash_html_block (g1 : Str) (ms : MState) : Str × MState :=
  let key := '!' :: (md5hexdigest g1 ++ ['!'])
  ("\n\n".toList ++ key ++ "\n\n".toList,
   { ms with html_blocks := alistPut ms.html_blocks key g1 })

/-- `Markdown._hash_html_blocks`. -/
def hash_html_blocks (cfg : Config) (ms : MState) (t : Str) : Str × MState :=
  if !(t.contains '<') then (t, ms)
  else
    match reSubSt matchStrictTagBlock hash_html_block t ms with
    | (t, ms) =>
      match reSubSt matchLiberalTagBlock hash_html_block t ms with
      | (t, ms) =>
        match (if containsSub "<hr".toList t then
                 reSubSt (matchHrTag cfg.tabWidth) hash_html_block t ms
               else (t, ms)) with
        | (t, ms) =>
          if containsSub "<!--".toList t then
            reSubSt (matchHtmlComment cfg.tabWidth) hash_html_block t ms
          else (t, ms)

/-! ## `_dedent` (the helper used by footnote extraction) -/

/-- Python `str.splitlines(True)` restricted to `\n` line endings. -/
def splitKeepEnds (s : Str) : Str → List Str := fun _ =>
  match splitOnChar '\n' s with
  | [] => []
  | parts =>
    let n := parts.length
    parts.enum.filterMap fun il =>
      if il.1 + 1 < n then some (il.2 ++ ['\n'])
      else if il.2 = [] then none
      else some il.2

/-- The indent-width scan of `_dedentlines` for one line (`None` when the line is
whitespace-only and is skipped for the margin computation). -/
def lineIndentGo (ts : Nat) : Str → Nat → Option Nat
  | [], _ => none
  | c :: cs, ind =>
    if c = ' ' then lineIndentGo ts cs (ind + 1)
    else if c = '\t' then lineIndentGo ts cs (ind + (ts - ind % ts))
    else if c = '\r' || c = '\n' then lineIndentGo ts cs ind
    else some ind

/-- Width removed after scanning the first `idx` characters. -/
def dedentLineRemovedAt (ts : Nat) (l : Str) (idx : Nat) : Nat :=
  (l.take idx).foldl
    (fun r c => if c = ' ' then r + 1 else if c = '\t' then r + (ts - r % ts) else r) 0

/-- The margin-removal loop of `_dedentlines` for one line. -/
def dedentLineGo (ts margin : Nat) (l : Str) : Nat → Nat → Str
  | 0, _ => l
  | fuel + 1, idx =>
    let removed := dedentLineRemovedAt ts l idx
    match l.get? idx with
    | none => if removed ≠ 0 then l.drop removed else l
    | some c =>
      if c = ' ' || c = '\t' then
        let r := if c = ' ' then removed + 1 else removed + (ts - removed % ts)
        if r = margin then l.drop (idx + 1)
        else if margin < r then List.replicate (r - margin) ' ' ++ l.drop (idx + 1)
        else dedentLineGo ts margin l fuel (idx + 1)
      else if c = '\r' || c = '\n' then l.drop idx
      else l   -- the ValueError branch of the source; unreachable for a valid margin

/-- `_dedent(text, tabsize, skip_first_line)`. -/
def pyDedent (ts : Nat) (skipFirst : Bool) (text : Str) : Str :=
  let lines := splitKeepEnds text text
  let indents := lines.enum.filterMap fun il =>
    if skipFirst && il.1 = 0 then none else lineIndentGo ts il.2 0
  match indents.min? with
  | none => (lines.map id).flatten
  | some margin =>
    if margin = 0 then lines.flatten
    else
      (lines.enum.map fun il =>
        if skipFirst && il.1 = 0 then il.2
        else dedentLineGo ts margin il.2 (il.2.length + 1) 0).flatten

/-! ## Footnote-definition stripping -/

/-- Python `str.split(sep)` for an exact multi-character separator. -/
def pySplitSGo (sep : Str) (t : Str) : Nat → Nat → List Str
  | 0, pos => [t.drop pos]
  | fuel + 1, pos =>
    let found := (ascRange pos t.length).findSome? fun i =>
      if sep.isPrefixOf (t.drop i) then some i else none
    match found with
    | none => [t.drop pos]
    | some i => (t.drop pos).take (i - pos) :: pySplitSGo sep t fuel (i + sep.length)

def pySplitS (sep t : Str) : List Str :=
  if sep.isEmpty then [t] else pySplitSGo sep t (t.length + 1) 0

/-- The continuation-line repetition `(?:(?:[ ]{tw}|\t).*\n+)*` of the footnote
pattern: candidate end positions, greedily ordered. -/
def fnContLines (tw : Nat) (t : Str) : Nat → Nat → List Nat
  | 0, u => [u]
  | fuel + 1, u =>
    let ind : Option Nat :=
      if (List.replicate tw ' ').isPrefixOf (t.drop u) then some (u + tw)
      else if t.get? u = some '\t' then some (u + 1)
      else none
    match ind with
    | none => [u]
    | some a =>
      let ll := runLen (· ≠ '\n') t a
      let nr := runLen (· = '\n') t (a + ll)
      if 1 ≤ nr then
        ((descRange 1 nr).flatMap fun m => fnContLines tw t fuel (a + ll + m)) ++ [u]
      else [u]

/-- The trailing `(?:(?=^[ ]{0,tw}\S)|\Z)` of the footnote pattern. -/
def fnEndOk (tw : Nat) (t : Str) (e : Nat) : Bool :=
  decide (e = t.length)
    || (lineStart t e
        && (let sr := runLen (· = ' ') t e
            decide (sr ≤ tw) && (t.get? (e + sr)).any (fun c => !(isPyWS c))))

/-- Matcher for `footnote_def_re` at `p`:
`^[ ]{0,tw-1}\[\^(.+)\]: [ \t]* ((?:\s*.*\n+)(?:(?:[ ]{tw}|\t).*\n+)*)` followed
by the end lookahead.  Returns ((id, footnote text), end). -/
def matchFootnoteDef (tw : Nat) (t : Str) (p : Nat) : Option ((Str × Str) × Nat) :=
  if lineStart t p then
    (descRange 0 (min (tw - 1) (runLen (· = ' ') t p))).findSome? fun sp =>
      let p1 := p + sp
      if "[^".toList.isPrefixOf (t.drop p1) then
        let lineRun := runLen (· ≠ '\n') t (p1 + 2)
        (descRange 1 lineRun).findSome? fun idlen =>
          let pid := p1 + 2 + idlen
          if t.get? pid = some ']' && t.get? (pid + 1) = some ':' then
            let idg := (t.drop (p1 + 2)).take idlen
            (descRange 0 (runLen isSpaceTab t (pid + 2))).findSome? fun w =>
              let b := pid + 2 + w
              (descRange 0 (runLen isPyWS t b)).findSome? fun s1 =>
                let a := b + s1
                let ll := runLen (· ≠ '\n') t a
                let nr := runLen (· = '\n') t (a + ll)
                if 1 ≤ nr then
                  (descRange 1 nr).findSome? fun m =>
                    (fnContLines tw t (t.length + 1) (a + ll + m)).findSome? fun e =>
                      if fnEndOk tw t e then
                        some ((idg, (t.drop b).take (e - b)), e)
                      else none
                else none
          else none
      else none
  else none

/-- `Markdown._extract_footnote_def_sub`. -/
def extract_footnote_def (st : MState) (idg body : Str) : MState :=
  let skipFirst := !("\n".toList.isPrefixOf body)
  let text := stripBy isPyWS (pyDedent 8 skipFirst body)
  let normed_id := normId idg
  let paras := pySplitS "\n\n".toList (encode_amps_and_angles text)
  { st with footnotes := alistPut st.footnotes normed_id paras }

/-- `Markdown._strip_footnote_definitions`. -/
def strip_footnote_definitions (cfg : Config) (ms : MState) (t : Str) : Str × MState :=
  reSubSt (matchFootnoteDef cfg.tabWidth)
    (fun caps st => (([] : Str), extract_footnote_def st caps.1 caps.2)) t ms

/-! ## Paragraph formation -/

/-- `re.split(r"\n{2,}", text)`. -/
def splitBlankRuns (t : Str) : Nat → Nat → List Str
  | 0, pos => [t.drop pos]
  | fuel + 1, pos =>
    let found := (ascRange pos t.length).findSome? fun i =>
      if t.get? i = some '\n' && t.get? (i + 1) = some '\n' then some i else none
    match found with
    | none => [t.drop pos]
    | some i =>
      let r := runLen (· = '\n') t i
      (t.drop pos).take (i - pos) :: splitBlankRuns t fuel (i + r)

/-- The per-paragraph loop of `_form_paragraphs`. -/
def formParagraphsGo (cfg : Config) (rs : Nat → ℚ) :
    List Str → GState → List Str × GState
  | [], g => ([], g)
  | graf :: rest, g =>
    match (match alistGet g.ms.html_blocks graf with
           | some block =>
             if cfg.safeMode then (HTML_REMOVED_TEXT, g) else (block, g)
           | none =>
             match run_span_gamut cfg rs graf g with
             | (sp, g') =>
               ("<p>".toList ++ lstripBy isSpaceTab sp ++ "</p>".toList, g')) with
    | (piece, g') =>
      match formParagraphsGo cfg rs rest g' with
      | (pieces, g'') => (piece :: pieces, g'')

/-- `Markdown._form_paragraphs`. -/
def form_paragraphs (cfg : Config) (rs : Nat → ℚ) (t : Str) (g : GState) : Str × GState :=
  let t := stripBy (· = '\n') t
  match formParagraphsGo cfg rs (splitBlankRuns t (t.length + 1) 0) g with
  | (pieces, g') => (joinWith "\n\n".toList pieces, g')

/-! ## `_do_headers` -/

/-- `Markdown._do_headers` (setext first, then atx; header text goes through the
span gamut). -/
def do_headers (cfg : Config) (rs : Nat → ℚ) (t : Str) (g : GState) : Str × GState :=
  let hsub : (Str × Nat) → GState → Str × GState := fun caps st =>
    match run_span_gamut cfg rs caps.1 st with
    | (sp, st') =>
      ("<h".toList ++ natToStr caps.2 ++ ['>'] ++ sp ++ "</h".toList
        ++ natToStr caps.2 ++ ">\n\n".toList, st')
  match reSubSt matchSetext hsub t g with
  | (t, g) => reSubSt matchAtx hsub t g

/-! ## The block pipeline (mutually recursive through lists and block quotes) -/

mutual

/-- `Markdown._run_block_gamut`. -/
def run_block_gamut (cfg : Config) (rs : Nat → ℚ) :
    Nat → Str → GState → Except Str (Str × GState)
  | 0, t, g => .ok (t, g)
  | fuel + 1, t, g =>
    match do_headers cfg rs t g with
    | (t, g) => do
      let (t, g) ← do_lists cfg rs fuel (do_hr cfg t) g
      let t ← do_code_blocks cfg t
      let (t, g) ← do_block_quotes cfg rs fuel t g
      match hash_html_blocks cfg g.ms t with
      | (t, ms) => .ok (form_paragraphs cfg rs t { g with ms := ms })

/-- `Markdown._do_lists`: the nested pattern (anchored `^`) when
`self.list_level` is positive, else the top-level pattern. -/
def do_lists (cfg : Config) (rs : Nat → ℚ) :
    Nat → Str → GState → Except Str (Str × GState)
  | 0, t, g => .ok (t, g)
  | fuel + 1, t, g =>
    applyListSubs cfg rs fuel (decide (g.ms.list_level ≠ 0)) t 0 g

/-- The `re.sub` scan of `_do_lists`, calling `_list_sub` per match. -/
def applyListSubs (cfg : Config) (rs : Nat → ℚ) :
    Nat → Bool → Str → Nat → GState → Except Str (Str × GState)
  | 0, _, t, pos, g => .ok (t.drop pos, g)
  | fuel + 1, nested, t, pos, g =>
    let m := fun t p => if nested then matchListNested t p else matchListTop t p
    let found := (ascRange pos t.length).findSome? fun p =>
      (m t p).map fun r => (p, r)
    match found with
    | none => .ok (t.drop pos, g)
    | some (p, ((g1, mk), e)) => do
      let (res, g) ← process_list_items cfg rs fuel g1 g
      let tag := if containsSub mk "*+-".toList then "ul".toList else "ol".toList
      let (rest, g) ← applyListSubs cfg rs fuel nested t (max e (p + 1)) g
      .ok ((t.drop pos).take (p - pos) ++ (['<'] ++ tag ++ ">\n".toList ++ res
        ++ "</".toList ++ tag ++ ">\n".toList) ++ rest, g)

/-- `Markdown._process_list_items`: bump the list level, reset the
loose-list flag, normalise the trailing newline, and substitute the items. -/
def process_list_items (cfg : Config) (rs : Nat → ℚ) :
    Nat → Str → GState → Except Str (Str × GState)
  | 0, lst, g => .ok (lst, g)
  | fuel + 1, lst, g => do
    let g := { g with ms := { g.ms with list_level := g.ms.list_level + 1 } }
    let lst := rstripBy (· = '\n') lst ++ ['\n']
    let (res, g') ← applyItemSubs cfg rs fuel lst 0 false g
    .ok (res, { g' with ms := { g'.ms with list_level := g'.ms.list_level - 1 } })

/-- The `_list_item_re.sub` scan; the `_last_li_endswith_two_eols` flag is set to
`False` at each `_process_list_items` entry and is read only by the item callback,
so it is threaded through this fold (each item reads the value written by the
previous item of the same scan; nested writes are overwritten before any read). -/
def applyItemSubs (cfg : Config) (rs : Nat → ℚ) :
    Nat → Str → Nat → Bool → GState → Except Str (Str × GState)
  | 0, t, pos, _, g => .ok (t.drop pos, g)
  | fuel + 1, t, pos, flag, g =>
    let found := (ascRange pos t.length).findSome? fun p =>
      (matchListItem t p).map fun r => (p, r)
    match found with
    | none => .ok (t.drop pos, g)
    | some (p, ((lead, item, eols), e)) => do
      let (li, g) ← list_item_sub cfg rs fuel lead item flag g
      let (rest, g) ← applyItemSubs cfg rs fuel t (max e (p + 1)) (decide (eols = 2)) g
      .ok ((t.drop pos).take (p - pos) ++ li ++ rest, g)

/-- `Markdown._list_item_sub`. -/
def list_item_sub (cfg : Config) (rs : Nat → ℚ) :
    Nat → Bool → Str → Bool → GState → Except Str (Str × GState)
  | 0, _, item, _, g => .ok (item, g)
  | fuel + 1, lead, item, flag, g =>
    if lead || containsSub "\n\n".toList item || flag then do
      let (it, g) ← run_block_gamut cfg rs fuel (outdent cfg.tabWidth item) g
      .ok ("<li>".toList ++ it ++ "</li>\n".toList, g)
    else do
      let (it, g) ← do_lists cfg rs fuel (outdent cfg.tabWidth item) g
      match run_span_gamut cfg rs
          (if it.getLast? = some '\n' then it.dropLast else it) g with
      | (sp, g) => .ok ("<li>".toList ++ sp ++ "</li>\n".toList, g)

/-- `Markdown._do_block_quotes`. -/
def do_block_quotes (cfg : Config) (rs : Nat → ℚ) :
    Nat → Str → GState → Except Str (Str × GState)
  | 0, t, g => .ok (t, g)
  | fuel + 1, t, g =>
    if !(t.contains '>') then .ok (t, g)
    else applyBqSubs cfg rs fuel t 0 g

/-- The `_block_quote_re.sub` scan. -/
def applyBqSubs (cfg : Config) (rs : Nat → ℚ) :
    Nat → Str → Nat → GState → Except Str (Str × GState)
  | 0, t, pos, g => .ok (t.drop pos, g)
  | fuel + 1, t, pos, g =>
    let found := (ascRange pos t.length).findSome? fun p =>
      (matchBlockQuote t p).map fun r => (p, r)
    match found with
    | none => .ok (t.drop pos, g)
    | some (p, (g1, e)) => do
      let (bq, g) ← block_quote_sub cfg rs fuel g1 g
      let (rest, g) ← applyBqSubs cfg rs fuel t (max e (p + 1)) g
      .ok ((t.drop pos).take (p - pos) ++ bq ++ rest, g)

/-- `Markdown._block_quote_sub`. -/
def block_quote_sub (cfg : Config) (rs : Nat → ℚ) :
    Nat → Str → GState → Except Str (Str × GState)
  | 0, bq, g => .ok (bq, g)
  | fuel + 1, bq, g => do
    let (bq, g) ← run_block_gamut cfg rs fuel (stripWsOnlyLines (bqTrimOneLevel bq)) g
    .ok ("<blockquote>\n".toList ++ fixPreBlocks (indentTwoSpaces bq)
      ++ "\n</blockquote>\n\n".toList, g)

end

/-! ## `Markdown.convert` -/

/-- The fuel given to the block pipeline: ample for any nesting the input can
express (each nesting level of lists/quotes consumes several units). -/
def blockFuel (t : Str) : Nat := 8 * t.length + 64

/-- `Markdown.convert`, with the stream of `random.random()` draws explicit.
Returns the HTML fragment, or the uncaught Python exception. -/
def convert (cfg : Config) (s0 : MState) (rs : Nat → ℚ) (text : Str) : Except Str Str :=
  let ms := reset cfg s0
  -- re.sub("\r\n|\r", "\n", text): equivalent to the two sequential replaces
  let text := pyReplace (pyReplace text "\r\n".toList ['\n']) ['\r'] ['\n']
  let text := text ++ "\n\n".toList
  let text := detab cfg.tabWidth text
  let text := stripWsOnlyLines text
  match hash_html_blocks cfg ms text with
  | (text, ms) =>
    match (if cfg.extras.footnotes then strip_footnote_definitions cfg ms text
           else (text, ms)) with
    | (text, ms) =>
      match strip_link_definitions cfg ms text with
      | (text, ms) =>
        (run_block_gamut cfg rs (blockFuel text) text { ms := ms, ridx := 0 }).map
          fun r =>
            match r with
            | (out, g) =>
              let out := unescape_special_chars out
              let out :=
                if cfg.extras.footnotes then add_footnotes cfg g.ms out else out
              out ++ ['\n']

/-! ## Claim-specific definitions -/

instance instDecEqExceptStr : DecidableEq (Except Str Str) := fun a b =>
  match a, b with
  | .error a, .error b =>
    if h : a = b then .isTrue (by rw [h]) else .isFalse (fun he => by cases he; exact h rfl)
  | .error _, .ok _ => .isFalse (fun h => by cases h)
  | .ok _, .error _ => .isFalse (fun h => by cases h)
  | .ok a, .ok b =>
    if h : a = b then .isTrue (by rw [h]) else .isFalse (fun he => by cases he; exact h rfl)

/-- A fixed stream of random draws (used where the e-mail encoder is not
exercised, or where one concrete stream is as good as any). -/
def rhalf : Nat → ℚ := fun _ => mkRat 1 2

/-- A second stream, differing from `rhalf`, falling in the hex-entity band. -/
def rtenth : Nat → ℚ := fun _ => mkRat 1 10

/-- `Markdown(extras=["code-color"])`. -/
def codeColorConfig : Config :=
  { defaultConfig with extras := { defaultConfig.extras with codeColor := true } }

/-- `Markdown(extras=["footnotes"])`. -/
def footnotesConfig : Config :=
  { defaultConfig with extras := { defaultConfig.extras with footnotes := true } }

/-- `Markdown(safe_mode=True)`. -/
def safeModeConfig : Config := { defaultConfig with safeMode := true }

/-- Modelled from the claim's wording (for the refinement check of the scanner's
per-iteration behaviour): "on every iteration the loop either advances the
cursor strictly past the current opening bracket ... or replaces the matched
span and advances the cursor and watermark past the replacement".  The second
disjunct is stated in its weakest reading (both positions strictly advance);
the source's footnote branch violates even this. -/
def claimedStepAdvance (s s' : LinkState) : Prop :=
  (s'.text = s.text ∧
    ∃ start, findLB s.text s.curr_pos = some start ∧ start < s'.curr_pos)
  ∨ (s'.text ≠ s.text ∧ s.curr_pos < s'.curr_pos
      ∧ s.anchor_allowed_pos < s'.anchor_allowed_pos)

/-- The store and state used for the C4 counterexample: the footnotes extra is
enabled and the store holds the id `a`. -/
def fnStoreA : MState := { emptyMState with footnotes := [(['a'], [['A']])] }

def fnStateA : LinkState :=
  { text := "[^a]".toList, curr_pos := 0, anchor_allowed_pos := 0, footnote_ids := [] }

/-- The state produced by one `_do_links` iteration from `fnStateA`: the span is
replaced by the footnote superscript but `curr_pos` and `anchor_allowed_pos`
stay at 0. -/
def fnStepAResult : LinkState :=
  { text := ("<sup class=\"footnote-ref\" id=\"fnref-a\">"
        ++ "<a href=\"#fn-a\">1</a></sup>").toList,
    curr_pos := 0, anchor_allowed_pos := 0, footnote_ids := ["a".toList] }

/-! ## Theorems for the claims -/

/-- C1: the spec requires that conversion never raises for malformed input
markup, and in particular that a code block whose content is a single
`:::name` line converts without raising under the `code-color` extra.  The
code violates this: `_code_block_sub` unpacks `codeblock.split('\n', 1)` into
two variables, which raises `ValueError` when the outdented, stripped block has
no newline, and the exception propagates out of `convert`; without the extra
the same input degrades gracefully. -/
theorem c1_code_color_single_line_directive_raises :
    code_block_sub codeColorConfig "    :::python\n\n\n".toList
      = .error "ValueError: need more than 1 value to unpack".toList
  ∧ convert codeColorConfig emptyMState rhalf "    :::python\n".toList
      = .error "ValueError: need more than 1 value to unpack".toList
  ∧ convert defaultConfig emptyMState rhalf "    :::python\n".toList
      = .ok "<pre><code>:::python\n</code></pre>\n".toList := by
  refine ⟨by decide, by decide, by decide⟩

/-- C2 counterexample: `convert` is not a pure function of the text and the
configuration alone — on the input `<foo@example.com>` two calls that draw
different values from the random stream used by the e-mail character encoder
return different strings. -/
theorem c2_counterexample_email_output_depends_on_draws :
    convert defaultConfig emptyMState rtenth "<foo@example.com>\n".toList
      ≠ convert defaultConfig emptyMState rhalf "<foo@example.com>\n".toList := by
  decide

/-- C2 (amended): conversion is deterministic in the text, the configuration
and the random draws: the e-mail address encoder is a function of the address
and of the `7 + len(addr)` draws it consumes, so any two streams agreeing on
the consumed prefix give identical output. -/
theorem c2_email_encoding_determined_by_consumed_draws :
    ∀ (rs1 rs2 : Nat → ℚ) (addr : Str),
      (∀ i, i < 7 + addr.length → rs1 i = rs2 i) →
      encode_email_address rs1 addr = encode_email_address rs2 addr := by
  intro rs1 rs2 addr h
  have h7 : ("mailto:".toList).length = 7 := rfl
  have hlen : ("mailto:".toList ++ addr).length = 7 + addr.length := by
    rw [List.length_append, h7]
  have hchars :
      (List.range ("mailto:".toList ++ addr).length).map
        (fun i => xml_encode_email_char_at_random (rs1 i)
          (("mailto:".toList ++ addr).getD i ' '))
      = (List.range ("mailto:".toList ++ addr).length).map
        (fun i => xml_encode_email_char_at_random (rs2 i)
          (("mailto:".toList ++ addr).getD i ' ')) := by
    refine List.map_congr_left ?_
    intro i hi
    rw [List.mem_range, hlen] at hi
    rw [h i hi]
  simp only [encode_email_address]
  rw [hchars]

/-- Witness for the C2 amended theorem at a concrete address and two concrete
streams agreeing on the thirteen consumed draws. -/
theorem c2_email_encoding_witness :
    encode_email_address (fun _ => mkRat 1 2) "a@b.co".toList
      = encode_email_address (fun i => if i < 13 then mkRat 1 2 else mkRat 9 10)
          "a@b.co".toList :=
  c2_email_encoding_determined_by_consumed_draws
    (fun _ => mkRat 1 2) (fun i => if i < 13 then mkRat 1 2 else mkRat 9 10)
    "a@b.co".toList (by decide)

/-- C3: on `[x [y](/b)](/a)` the scanner realises exactly one of the two
candidate anchors (the outer one; the inner start position lies below the
anchor-allowed watermark), and no anchor is nested inside another anchor's
text: the output contains exactly one opening and one closing anchor tag. -/
theorem c3_anchor_non_nesting :
    (do_links defaultConfig emptyMState "[x [y](/b)](/a)".toList).1
      = "<a href=\"/a\">x [y](/b)</a>".toList
  ∧ countSub "<a ".toList "<a href=\"/a\">x [y](/b)</a>".toList = 1
  ∧ countSub "</a>".toList "<a href=\"/a\">x [y](/b)</a>".toList = 1 := by
  refine ⟨by decide, by decide, by decide⟩

/-- C5: stripping the definition `[foo]: /url "Title"` stores the url and title
under the lower-cased id and removes the line; resolving `[text][foo]` against
those tables yields the claimed anchor, and the id is case-insensitive in both
directions (`[text][Foo]`, and a `[Foo]:` definition). -/
theorem c5_reference_link_round_trip :
    (strip_link_definitions defaultConfig emptyMState
        "[foo]: /url \"Title\"\n\n[text][foo]\n".toList).1 = "[text][foo]\n".toList
  ∧ (strip_link_definitions defaultConfig emptyMState
        "[foo]: /url \"Title\"\n\n[text][foo]\n".toList).2.urls
      = [("foo".toList, "/url".toList)]
  ∧ (strip_link_definitions defaultConfig emptyMState
        "[foo]: /url \"Title\"\n\n[text][foo]\n".toList).2.titles
      = [("foo".toList, "Title".toList)]
  ∧ (do_links defaultConfig
        { emptyMState with urls := [("foo".toList, "/url".toList)],
                           titles := [("foo".toList, "Title".toList)] }
        "[text][foo]".toList).1
      = "<a href=\"/url\" title=\"Title\">text</a>".toList
  ∧ (do_links defaultConfig
        { emptyMState with urls := [("foo".toList, "/url".toList)],
                           titles := [("foo".toList, "Title".toList)] }
        "[text][Foo]".toList).1
      = "<a href=\"/url\" title=\"Title\">text</a>".toList
  ∧ (strip_link_definitions defaultConfig emptyMState
        "[Foo]: /url \"Title\"\n\n[text][foo]\n".toList).2.urls
      = [("foo".toList, "/url".toList)] := by
  refine ⟨by decide, by decide, by decide, by decide, by decide, by decide⟩

/-- C6: a two-item list without a blank line between the items renders with no
paragraph wrapping; the same list with a blank line wraps every item's content
— the first as well as the second — in a paragraph element. -/
theorem c6_list_tightness :
    convert defaultConfig emptyMState rhalf "- a\n- b\n".toList
      = .ok "<ul>\n<li>a</li>\n<li>b</li>\n</ul>\n".toList
  ∧ countSub "<p>".toList "<ul>\n<li>a</li>\n<li>b</li>\n</ul>\n".toList = 0
  ∧ convert defaultConfig emptyMState rhalf "- a\n\n- b\n".toList
      = .ok "<ul>\n<li><p>a</p></li>\n<li><p>b</p></li>\n</ul>\n".toList
  ∧ countSub "<li><p>a</p></li>".toList
      "<ul>\n<li><p>a</p></li>\n<li><p>b</p></li>\n</ul>\n".toList = 1
  ∧ countSub "<li><p>b</p></li>".toList
      "<ul>\n<li><p>a</p></li>\n<li><p>b</p></li>\n</ul>\n".toList = 1 := by
  refine ⟨by decide, by decide, by decide, by decide, by decide⟩

/-- C7 counterexample: with safe mode on, the input `Hi <span>x</span> there`
holds two recognised inline tags; conversion succeeds and no raw tag text
survives, but the fixed marker string `[HTML_REMOVED]` appears nowhere in the
output — the emphasis pass pairs the markers' underscores and rewrites them to
`[HTML<em>REMOVED]...[HTML</em>REMOVED]`. -/
theorem c7_counterexample_marker_corrupted_by_emphasis :
    convert safeModeConfig emptyMState rhalf "Hi <span>x</span> there\n".toList
      = .ok "<p>Hi [HTML<em>REMOVED]x[HTML</em>REMOVED] there</p>\n".toList
  ∧ countSub HTML_REMOVED_TEXT
      "<p>Hi [HTML<em>REMOVED]x[HTML</em>REMOVED] there</p>\n".toList = 0 := by
  refine ⟨by decide, by decide⟩

/-- C7 (amended): in safe mode every recognised inline token is replaced by the
fixed marker at the escaping stage, and a hashed raw-HTML block paragraph is
replaced by the marker at paragraph formation; conversion completes and no raw
tag text from the input appears in the output.  (The verbatim marker can be
corrupted afterwards by the emphasis pass when two or more inline tokens occur
in one paragraph.) -/
theorem c7_safe_mode_replaces_html :
    escape_special_chars safeModeConfig "Hi <span>x</span> there".toList
      = "Hi [HTML_REMOVED]x[HTML_REMOVED] there".toList
  ∧ convert safeModeConfig emptyMState rhalf
      "<div>\nfoo\n</div>\n\nHi <br> x\n".toList
      = .ok "[HTML_REMOVED]\n\n<p>Hi [HTML_REMOVED] x</p>\n".toList
  ∧ containsSub "<div".toList "[HTML_REMOVED]\n\n<p>Hi [HTML_REMOVED] x</p>\n".toList
      = false
  ∧ containsSub "<br".toList "[HTML_REMOVED]\n\n<p>Hi [HTML_REMOVED] x</p>\n".toList
      = false
  ∧ countSub HTML_REMOVED_TEXT "[HTML_REMOVED]\n\n<p>Hi [HTML_REMOVED] x</p>\n".toList
      = 2 := by
  refine ⟨by decide, by decide, by decide, by decide, by decide⟩

/-- C8: with the footnotes extra, the numbers assigned in the body and the
order of the appended entries follow first-reference order (`b` then `a`),
not the store's definition order (`a` then `b`). -/
theorem c8_footnote_numbers_follow_reference_order :
    (do_links footnotesConfig
        { emptyMState with
            footnotes := [("a".toList, ["A".toList]), ("b".toList, ["B".toList])] }
        "x[^b] y[^a]".toList).2.footnote_ids = ["b".toList, "a".toList]
  ∧ (do_links footnotesConfig
        { emptyMState with
            footnotes := [("a".toList, ["A".toList]), ("b".toList, ["B".toList])] }
        "x[^b] y[^a]".toList).1
      = ("x<sup class=\"footnote-ref\" id=\"fnref-b\"><a href=\"#fn-b\">1</a></sup>"
          ++ " y<sup class=\"footnote-ref\" id=\"fnref-a\"><a href=\"#fn-a\">2</a></sup>").toList
  ∧ add_footnotes footnotesConfig
      { emptyMState with
          footnotes := [("a".toList, ["A".toList]), ("b".toList, ["B".toList])],
          footnote_ids := ["b".toList, "a".toList] }
      "BODY".toList
      = ("BODY\n\n<div class=\"footnotes\">\n<hr />\n<ol>\n<li id=\"fn-b\">\n"
          ++ "<p>B&nbsp;<a href=\"#fnref-b\" class=\"footnoteBackLink\" "
          ++ "title=\"Jump back to footnote 1 in the text.\">&#8617;</a></p>\n</li>\n\n"
          ++ "<li id=\"fn-a\">\n<p>A&nbsp;<a href=\"#fnref-a\" class=\"footnoteBackLink\" "
          ++ "title=\"Jump back to footnote 2 in the text.\">&#8617;</a></p>\n</li>\n"
          ++ "</ol>\n</div>").toList := by
  refine ⟨by decide, by decide, by decide⟩

/-- C9: `convert` begins by calling `reset`, which empties the url, title and
raw-HTML-block tables, zeroes the list level, and — when the footnotes extra is
enabled — empties the footnote store and id order; hence the output of a call
does not depend on the tables left by any earlier call on the same instance
(when the extra is disabled the footnote attributes do not exist on the Python
instance, which the hypothesis of the second part reflects). -/
theorem c9_reset_clears_tables_and_output_ignores_stale_state :
    (∀ (cfg : Config) (s : MState),
        (reset cfg s).urls = [] ∧ (reset cfg s).titles = [] ∧
        (reset cfg s).html_blocks = [] ∧ (reset cfg s).list_level = 0 ∧
        (cfg.extras.footnotes = true →
          (reset cfg s).footnotes = [] ∧ (reset cfg s).footnote_ids = []))
    ∧ (∀ (cfg : Config) (s₁ s₂ : MState) (rs : Nat → ℚ) (text : Str),
        (cfg.extras.footnotes = false →
          s₁.footnotes = s₂.footnotes ∧ s₁.footnote_ids = s₂.footnote_ids) →
        convert cfg s₁ rs text = convert cfg s₂ rs text) := by
  constructor
  · intro cfg s
    refine ⟨rfl, rfl, rfl, rfl, fun hf => ?_⟩
    constructor <;> simp [reset, hf]
  · intro cfg s₁ s₂ rs text h
    have hr : reset cfg s₁ = reset cfg s₂ := by
      by_cases hf : cfg.extras.footnotes
      · simp [reset, hf]
      · have h2 := h (by simpa using hf)
        simp [reset, hf, h2.1, h2.2]
    unfold convert
    rw [hr]

/-- Witness for C9: a state with stale tables from an earlier conversion and a
fresh state give the same output (footnotes extra enabled, so the phantom
hypothesis is vacuous). -/
theorem c9_witness :
    convert footnotesConfig
        { urls := [("old".toList, "/old".toList)],
          titles := [("old".toList, "Old".toList)],
          html_blocks := [("k".toList, "<div></div>".toList)], list_level := 3,
          footnotes := [("z".toList, ["Z".toList])], footnote_ids := ["z".toList] }
        rhalf "x".toList
      = convert footnotesConfig emptyMState rhalf "x".toList :=
  c9_reset_clears_tables_and_output_ignores_stale_state.2 footnotesConfig
    { urls := [("old".toList, "/old".toList)],
      titles := [("old".toList, "Old".toList)],
      html_blocks := [("k".toList, "<div></div>".toList)], list_level := 3,
      footnotes := [("z".toList, ["Z".toList])], footnote_ids := ["z".toList] }
    emptyMState rhalf "x".toList (fun hf => nomatch hf)

/-- C10: for the empty input, and whatever the random stream, `convert` returns
exactly the newline-terminated fragment holding one empty paragraph element. -/
theorem c10_empty_input_yields_empty_paragraph :
    ∀ (rs : Nat → ℚ),
      convert defaultConfig emptyMState rs [] = .ok "<p></p>\n".toList :=
  fun _ => rfl

/-! ## Termination of the link scanner (C4)

The measure is the number of `[` characters at or after the cursor
(`lbCountFrom`); every continuing iteration of `do_links_step` strictly
decreases it. -/

theorem drop_drop_add (t : Str) (a b : Nat) : (t.drop a).drop b = t.drop (a + b) := by
  rw [List.drop_drop]
  try congr 1
  try omega

theorem count_drop_le (t : Str) {a b : Nat} (h : a ≤ b) :
    (t.drop b).count '[' ≤ (t.drop a).count '[' := by
  have hd : t.drop b = (t.drop a).drop (b - a) := by
    rw [List.drop_drop]
    congr 1
    omega
  rw [hd]
  exact (List.drop_sublist _ _).count_le '['

theorem firstLB_spec : ∀ (l : Str) (i : Nat), firstLB l = some i →
    i < l.length ∧ l.drop i = '[' :: l.drop (i + 1) ∧
    l.count '[' = (l.drop i).count '[' := by
  intro l
  induction l with
  | nil => intro i h; simp [firstLB] at h
  | cons c cs ih =>
    intro i h
    by_cases hc : c = '['
    · subst hc
      simp [firstLB] at h
      subst h
      simp
    · rw [firstLB, if_neg hc, Option.map_eq_some'] at h
      obtain ⟨j, hj, hij⟩ := h
      subst hij
      obtain ⟨h1, h2, h3⟩ := ih j hj
      refine ⟨by simp only [List.length_cons]; omega, by simpa using h2, ?_⟩
      rw [List.count_cons]
      simp [hc, h3]

theorem findLB_spec {t : Str} {pos start : Nat} (h : findLB t pos = some start) :
    pos ≤ start ∧ start < t.length ∧
    t.drop start = '[' :: t.drop (start + 1) ∧
    lbCountFrom t pos = lbCountFrom t start := by
  rw [findLB, Option.map_eq_some'] at h
  obtain ⟨i, hi, hstart⟩ := h
  obtain ⟨h1, h2, h3⟩ := firstLB_spec _ _ hi
  subst hstart
  rw [List.length_drop] at h1
  refine ⟨Nat.le_add_right _ _, by omega, ?_, ?_⟩
  · have e1 : (t.drop pos).drop i = t.drop (pos + i) := drop_drop_add t pos i
    have e2 : (t.drop pos).drop (i + 1) = t.drop (pos + i + 1) := drop_drop_add t pos (i + 1)
    rw [e1, e2] at h2
    exact h2
  · unfold lbCountFrom
    rw [h3]
    congr 1
    exact drop_drop_add t pos i

theorem count_drop_split {t : Str} {pos start : Nat} (hpos : pos ≤ start)
    (hs : start ≤ t.length) :
    (t.drop pos).count '[' =
      ((t.take start).drop pos).count '[' + (t.drop start).count '[' := by
  conv_lhs => rw [← List.take_append_drop start t]
  rw [List.drop_append_eq_append_drop, List.count_append]
  have hz : pos - (t.take start).length = 0 := by
    rw [List.length_take]; omega
  rw [hz, List.drop_zero]

theorem count_drop_cons_lb {t : Str} {start : Nat}
    (hdec : t.drop start = '[' :: t.drop (start + 1)) :
    (t.drop start).count '[' = (t.drop (start + 1)).count '[' + 1 := by
  rw [hdec, List.count_cons]
  simp

theorem decrease_fail {t : Str} {pos start X : Nat} (hf : findLB t pos = some start)
    (hX : start + 1 ≤ X) : lbCountFrom t X < lbCountFrom t pos := by
  obtain ⟨hle, hlt, hdec, hcount⟩ := findLB_spec hf
  have h1 : (t.drop X).count '[' ≤ (t.drop (start + 1)).count '[' := count_drop_le t hX
  have h2 := count_drop_cons_lb hdec
  unfold lbCountFrom at *
  omega

theorem decrease_repl_keep_pos {t : Str} {pos start p : Nat}
    (hf : findLB t pos = some start) (res : Str) (hres : res.count '[' = 0)
    (hp : start + 1 ≤ p) :
    lbCountFrom (t.take start ++ res ++ t.drop p) pos < lbCountFrom t pos := by
  obtain ⟨hpos, hlt, hdec, hcount⟩ := findLB_spec hf
  have hlen : (t.take start).length = start := by rw [List.length_take]; omega
  have hnew : ((t.take start ++ res ++ t.drop p).drop pos).count '['
      = ((t.take start).drop pos).count '[' + (res.count '[' + (t.drop p).count '[') := by
    rw [List.append_assoc, List.drop_append_eq_append_drop, List.count_append, hlen,
        show pos - start = 0 from by omega, List.drop_zero, List.count_append]
  have hold := count_drop_split hpos (le_of_lt hlt)
  have hmono : (t.drop p).count '[' ≤ (t.drop (start + 1)).count '[' := count_drop_le t hp
  have hcons := count_drop_cons_lb hdec
  unfold lbCountFrom at *
  omega

theorem decrease_repl_anchor {t : Str} {pos start rel k : Nat}
    (hf : findLB t pos = some start) (head tail : Str) (htail : tail.count '[' = 0) :
    lbCountFrom (t.take start ++ (head ++ (t.drop (start + 1)).take rel ++ tail)
        ++ t.drop (start + 1 + rel + 1 + k)) (start + head.length)
      < lbCountFrom t pos := by
  obtain ⟨hpos, hlt, hdec, hcount⟩ := findLB_spec hf
  have hlen : (t.take start).length = start := by rw [List.length_take]; omega
  have hshape : t.take start ++ (head ++ (t.drop (start + 1)).take rel ++ tail)
        ++ t.drop (start + 1 + rel + 1 + k)
      = (t.take start ++ head) ++ (((t.drop (start + 1)).take rel ++ tail)
          ++ t.drop (start + 1 + rel + 1 + k)) := by
    simp [List.append_assoc]
  have hheadlen : start + head.length = (t.take start ++ head).length := by
    simp [hlen]
  have hnew : ((t.take start ++ (head ++ (t.drop (start + 1)).take rel ++ tail)
        ++ t.drop (start + 1 + rel + 1 + k)).drop (start + head.length)).count '['
      = ((t.drop (start + 1)).take rel).count '[' + (tail.count '['
          + (t.drop (start + 1 + rel + 1 + k)).count '[') := by
    rw [hshape, hheadlen, List.drop_left, List.count_append, List.count_append]
    omega
  have hold := count_drop_split hpos (le_of_lt hlt)
  have hcons := count_drop_cons_lb hdec
  have hsplit : (t.drop (start + 1)).count '['
      = ((t.drop (start + 1)).take rel).count '[' + (t.drop (start + 1 + rel)).count '[' := by
    rw [← drop_drop_add t (start + 1) rel]
    conv_lhs => rw [← List.take_append_drop rel (t.drop (start + 1))]
    rw [List.count_append]
  have hmono : (t.drop (start + 1 + rel + 1 + k)).count '['
      ≤ (t.drop (start + 1 + rel)).count '[' := count_drop_le t (by omega)
  unfold lbCountFrom at *
  omega

theorem decrease_repl_img {t : Str} {pos start start' e : Nat}
    (hf : findLB t pos = some start) (res : Str) (hs' : start' ≤ start)
    (he : start + 1 ≤ e) :
    lbCountFrom (t.take start' ++ res ++ t.drop e) (start' + res.length)
      < lbCountFrom t pos := by
  obtain ⟨hpos, hlt, hdec, hcount⟩ := findLB_spec hf
  have hlen : (t.take start').length = start' := by rw [List.length_take]; omega
  have hshape : t.take start' ++ res ++ t.drop e = (t.take start' ++ res) ++ t.drop e := by
    simp [List.append_assoc]
  have hreslen : start' + res.length = (t.take start' ++ res).length := by
    simp [hlen]
  have hnew : ((t.take start' ++ res ++ t.drop e).drop (start' + res.length)).count '['
      = (t.drop e).count '[' := by
    rw [hshape, hreslen, List.drop_left]
  have hold := count_drop_split hpos (le_of_lt hlt)
  have hcons := count_drop_cons_lb hdec
  have hmono : (t.drop e).count '[' ≤ (t.drop (start + 1)).count '[' :=
    count_drop_le t he
  unfold lbCountFrom at *
  omega

theorem count_normId (s : Str) : (normId s).count '[' = 0 := by
  rw [List.count_eq_zero]
  intro hmem
  rw [normId, List.mem_map] at hmem
  obtain ⟨c, _, hc⟩ := hmem
  by_cases h : isWordChar c
  · rw [if_pos h] at hc
    subst hc
    exact absurd h (by decide)
  · rw [if_neg h] at hc
    exact absurd hc (by decide)

theorem count_natToStrAux : ∀ (fuel n : Nat), (natToStrAux fuel n).count '[' = 0 := by
  intro fuel
  induction fuel with
  | zero => intro n; simp [natToStrAux]
  | succ f ih =>
    intro n
    rw [natToStrAux]
    split
    · next h =>
      have : digitChar n ≠ '[' := (by decide : ∀ m < 10, digitChar m ≠ '[') n h
      simp [List.count_cons, this]
    · rw [List.count_append, ih]
      have : digitChar (n % 10) ≠ '[' :=
        (by decide : ∀ m < 10, digitChar m ≠ '[') (n % 10) (Nat.mod_lt _ (by omega))
      simp [List.count_cons, this]

theorem count_natToStr (n : Nat) : (natToStr n).count '[' = 0 :=
  count_natToStrAux _ _

theorem count_footnoteRefResult (id : Str) (hid : id.count '[' = 0) (n : Nat) :
    (footnoteRefResult id n).count '[' = 0 := by
  unfold footnoteRefResult
  simp only [List.count_append, hid, count_natToStr]
  decide

/-- Every `continue` iteration of the `_do_links` while-loop strictly decreases
the number of `[` characters at or after the cursor. -/
theorem do_links_step_decreases (cfg : Config) (ms : MState) (s s' : LinkState)
    (h : do_links_step cfg ms s = Sum.inl s') :
    lbCountFrom s'.text s'.curr_pos < lbCountFrom s.text s.curr_pos := by
  unfold do_links_step at h
  dsimp only at h
  split at h
  · exact absurd h (by simp)
  next start hfind =>
    split at h
    -- scanCloser none: cursor moves to start+1
    next hscan =>
      injection h with h
      subst h
      exact decrease_fail hfind (Nat.le_refl _)
    next rel hscan =>
      split at h
      -- footnote prefix branch
      next hfn =>
        split at h
        -- id found in store: text replaced, cursor kept
        next hid =>
          injection h with h
          subst h
          dsimp only
          exact decrease_repl_keep_pos hfind _
            (count_footnoteRefResult _ (count_normId _) _) (by omega)
        -- id not found: cursor to pc+1
        next hid =>
          injection h with h
          subst h
          dsimp only
          exact decrease_fail hfind (by omega)
      -- not a footnote reference
      next hfn =>
        split at h
        -- p = len: break (inr), contradiction
        next hend => exact absurd h (by simp)
        next hend =>
          split at h
          -- '(' follows: inline link
          next hparen =>
            split at h
            -- matchInlineTail some
            next url0 title0 k hmatch =>
              split at h
              -- is_img
              next himg =>
                injection h with h
                subst h
                dsimp only
                exact decrease_repl_img hfind _ (by omega) (by omega)
              next himg =>
                split at h
                -- anchor allowed
                next hanch =>
                  injection h with h
                  subst h
                  dsimp only
                  exact decrease_repl_anchor hfind _ _ (by decide)
                next hanch =>
                  injection h with h
                  subst h
                  exact decrease_fail hfind (Nat.le_refl _)
            -- matchInlineTail none
            next hmatch =>
              injection h with h
              subst h
              exact decrease_fail hfind (Nat.le_refl _)
          -- reference link
          next hparen =>
            split at h
            next idg k hmatch =>
              split at h
              -- url found
              next url0 hurl =>
                split at h
                next himg =>
                  injection h with h
                  subst h
                  dsimp only
                  exact decrease_repl_img hfind _ (by omega) (by omega)
                next himg =>
                  split at h
                  next hanch =>
                    injection h with h
                    subst h
                    dsimp only
                    exact decrease_repl_anchor hfind _ _ (by decide)
                  next hanch =>
                    injection h with h
                    subst h
                    exact decrease_fail hfind (Nat.le_refl _)
              -- url missing: cursor to p+k
              next hurl =>
                injection h with h
                subst h
                dsimp only
                exact decrease_fail hfind (by omega)
            next hmatch =>
              injection h with h
              subst h
              exact decrease_fail hfind (Nat.le_refl _)

/-- Any fuel exceeding the bracket count at the cursor suffices for the
`_do_links` loop to reach its `return`. -/
theorem do_links_loop_total (cfg : Config) (ms : MState) :
    ∀ (n : Nat) (s : LinkState), lbCountFrom s.text s.curr_pos < n →
      (do_links_loop cfg ms n s).isSome = true := by
  intro n
  induction n with
  | zero => intro s hs; omega
  | succ m ih =>
    intro s hs
    rw [do_links_loop]
    rcases hstep : do_links_step cfg ms s with s2 | r
    · exact ih s2 (Nat.lt_of_lt_of_le (do_links_step_decreases cfg ms s s2 hstep) (by omega))
    · rfl

/-- C4: the link/image scanning loop of `_do_links` terminates for every input
text, store and configuration, and the number of iterations is bounded by the
number of `[` characters at or after the starting cursor: running the loop with
that bracket count plus one as fuel always reaches the function's `return`. -/
theorem c4_scan_terminates_within_bracket_bound :
    ∀ (cfg : Config) (ms : MState) (s : LinkState),
      (do_links_loop cfg ms (lbCountFrom s.text s.curr_pos + 1) s).isSome = true :=
  fun cfg ms s => do_links_loop_total cfg ms _ s (Nat.lt_succ_self _)

/-- C4 counterexample: the claim's per-iteration invariant ("either advances
the cursor strictly past the current opening bracket or replaces the matched
span and advances the cursor and watermark past the replacement") fails on the
footnote-reference branch: from the text `[^a]` with id `a` in the store, the
iteration replaces the span but leaves both `curr_pos` and `anchor_allowed_pos`
at 0.  Termination still holds because the replacement contains no `[` (the
claim's bracket-count bound survives, as proved above). -/
theorem c4_counterexample_footnote_step_keeps_cursor :
    do_links_step footnotesConfig fnStoreA fnStateA = Sum.inl fnStepAResult
    ∧ ¬ claimedStepAdvance fnStateA fnStepAResult := by
  refine ⟨by decide, ?_⟩
  intro hadv
  rcases hadv with ⟨heq, _⟩ | ⟨_, hlt, _⟩
  · exact absurd heq (by decide)
  · exact absurd hlt (by decide)


end Markdown2
